import Mathlib

/-!
Verification of the terrain-destruction simulation (Rust sources under `src/`).

The development shallowly embeds the code in Lean:
  * `f32` scalar values are modelled as exact rationals (`ℚ`); every comparison
    the code performs is on values produced by exact arithmetic on the modelled
    constants, so the branch structure is preserved.
  * the quadtree (`quadtree.rs`) is a nested inductive mirroring the
    `QuadTreeNode` struct (four optional children plus a `divided` flag);
    `insert` is defined through a fuel-indexed recursion (`insertF`) because
    the Rust recursion is not structural (subdividing creates fresh children);
    fuel `heightN n + 1` is proved sufficient for well-formed trees.
  * fallible operations return `Option`: `damage_terrain_at` indexes
    `self.terrain[x][y]` before its bounds test, so an out-of-bounds call is a
    Rust panic, modelled as `none`.
-/

set_option maxHeartbeats 1000000

namespace TD

/-- The `Material` enum from `materials.rs`. -/
inductive Material : Type where
  | Air : Material
  | Grass : Material
  | Rock : Material
deriving DecidableEq, Repr

/-- The `Cell` struct from `cell.rs`: a material together with a durability
(an `f32` in the source, modelled as `ℚ`). -/
structure Cell : Type where
  material : Material
  durability : ℚ
deriving DecidableEq, Repr

/-- The rectangle type `ggez::graphics::Rect` as used by the quadtree: origin `(x, y)` plus
width `w` and height `h`. -/
structure Rect : Type where
  x : ℚ
  y : ℚ
  w : ℚ
  h : ℚ
deriving DecidableEq, Repr

/-- The `QuadTreeItem` struct from `quadtree.rs`: a point coordinate plus the grid
indices of the terrain tile it stands for. -/
structure QuadTreeItem : Type where
  x : ℚ
  y : ℚ
  tx : ℕ
  ty : ℕ
deriving DecidableEq, Repr

/-- The `QuadTreeNode` struct from `quadtree.rs`: boundary, capacity, stored items,
a `divided` flag, and four optional children. -/
inductive QuadTreeNode : Type where
  | mk (boundary : Rect) (capacity : ℕ) (items : List QuadTreeItem)
      (divided : Bool)
      (northeast northwest southeast southwest : Option QuadTreeNode) :
      QuadTreeNode

namespace QuadTreeNode

/-- Boundary field accessor. -/
def boundary : QuadTreeNode → Rect
  | .mk b _ _ _ _ _ _ _ => b

/-- Capacity field accessor. -/
def capacity : QuadTreeNode → ℕ
  | .mk _ c _ _ _ _ _ _ => c

/-- Items field accessor. -/
def items : QuadTreeNode → List QuadTreeItem
  | .mk _ _ its _ _ _ _ _ => its

/-- Method `QuadTreeNode::contains_point`: closed-rectangle membership test. -/
def containsPoint (rect : Rect) (x y : ℚ) : Bool :=
  decide (rect.x ≤ x) && decide (x ≤ rect.x + rect.w) &&
  decide (rect.y ≤ y) && decide (y ≤ rect.y + rect.h)

/-- Method `QuadTreeNode::intersects`: rectangle overlap test. -/
def intersects (a b : Rect) : Bool :=
  !(decide (a.x > b.x + b.w) || decide (a.x + a.w < b.x) ||
    decide (a.y > b.y + b.h) || decide (a.y + a.h < b.y))

/-- Quadrant boundaries produced by `QuadTreeNode::subdivide`:
northeast, northwest, southeast, southwest, in the order the source
constructs them. -/
def neRect (b : Rect) : Rect := ⟨b.x + b.w / 2, b.y, b.w / 2, b.h / 2⟩

/-- Northwest quadrant of `subdivide`. -/
def nwRect (b : Rect) : Rect := ⟨b.x, b.y, b.w / 2, b.h / 2⟩

/-- Southeast quadrant of `subdivide`. -/
def seRect (b : Rect) : Rect := ⟨b.x + b.w / 2, b.y + b.h / 2, b.w / 2, b.h / 2⟩

/-- Southwest quadrant of `subdivide`. -/
def swRect (b : Rect) : Rect := ⟨b.x, b.y + b.h / 2, b.w / 2, b.h / 2⟩

/-- Method `QuadTreeNode::new`: an empty undivided node. -/
def newNode (b : Rect) (c : ℕ) : QuadTreeNode :=
  .mk b c [] false none none none none

/-- Insertion into one optional child (`if let Some(ref mut ne) = ...` in
`insert`): a missing child is skipped, an existing child receives the
recursive call; the possibly-mutated child is kept either way. -/
def insChild (ins : QuadTreeNode → QuadTreeItem → QuadTreeNode × Bool)
    (o : Option QuadTreeNode) (it : QuadTreeItem) :
    Option QuadTreeNode × Bool :=
  match o with
  | none => (none, false)
  | some t => let r := ins t it; (some r.1, r.2)

/-- The cascade of child-insertion attempts at the end of
`QuadTreeNode::insert`: try northeast, northwest, southeast, southwest in
that fixed order, returning as soon as one child accepts the item; every
attempted child keeps its (possibly mutated) state and the node is left
`divided`. -/
def tryFour (ins : QuadTreeNode → QuadTreeItem → QuadTreeNode × Bool)
    (b : Rect) (c : ℕ) (its : List QuadTreeItem)
    (ne nw se sw : Option QuadTreeNode) (it : QuadTreeItem) :
    QuadTreeNode × Bool :=
  let r1 := insChild ins ne it
  if r1.2 then (.mk b c its true r1.1 nw se sw, true)
  else
    let r2 := insChild ins nw it
    if r2.2 then (.mk b c its true r1.1 r2.1 se sw, true)
    else
      let r3 := insChild ins se it
      if r3.2 then (.mk b c its true r1.1 r2.1 r3.1 sw, true)
      else
        let r4 := insChild ins sw it
        (.mk b c its true r1.1 r2.1 r3.1 r4.1, r4.2)

/-- Method `QuadTreeNode::insert`, indexed by fuel (the Rust recursion descends
into children freshly created by `subdivide`, so it is not structural; with
fuel at least `heightN n + 1` the model agrees with the source, see
`insertF_spec`).  Out of fuel the insertion reports failure.  A node that
is full and not yet divided subdivides (the four fresh quadrant leaves)
before the child attempts, exactly as in the source. -/
def insertF : ℕ → QuadTreeNode → QuadTreeItem → QuadTreeNode × Bool
  | 0, n, _ => (n, false)
  | Nat.succ f, .mk b c its div ne nw se sw, it =>
    if containsPoint b it.x it.y then
      if its.length < c then (.mk b c (its ++ [it]) div ne nw se sw, true)
      else if div then tryFour (insertF f) b c its ne nw se sw it
      else
        tryFour (insertF f) b c its
          (some (newNode (neRect b) c)) (some (newNode (nwRect b) c))
          (some (newNode (seRect b) c)) (some (newNode (swRect b) c)) it
    else (.mk b c its div ne nw se sw, false)

/-- Height of a node: 1 plus the maximal child height (0 for a missing
child); used as the fuel measure for `insertF`. -/
def heightN : QuadTreeNode → ℕ
  | .mk _ _ _ _ ne nw se sw =>
    1 + max (max (hOpt ne) (hOpt nw)) (max (hOpt se) (hOpt sw))
where
  /-- Height of an optional child. -/
  hOpt : Option QuadTreeNode → ℕ
    | none => 0
    | some t => heightN t

/-- Method `QuadTreeNode::insert` with fuel proved sufficient for well-formed
trees. -/
def insert (n : QuadTreeNode) (it : QuadTreeItem) : QuadTreeNode × Bool :=
  insertF (heightN n + 1) n it

/-- Method `QuadTreeNode::query`, returning the found list (the source appends to
a `&mut Vec` in the order: own items, then northeast, northwest, southeast,
southwest children). -/
def query : QuadTreeNode → Rect → List QuadTreeItem
  | .mk b _ its div ne nw se sw, range =>
    if intersects b range then
      its.filter (fun it => containsPoint range it.x it.y)
        ++ (if div then
              (match ne with | some t => query t range | none => [])
              ++ (match nw with | some t => query t range | none => [])
              ++ (match se with | some t => query t range | none => [])
              ++ (match sw with | some t => query t range | none => [])
            else [])
    else []

/-- All items stored anywhere in a node, own items first then children in
the northeast, northwest, southeast, southwest order. -/
def toList : QuadTreeNode → List QuadTreeItem
  | .mk _ _ its _ ne nw se sw =>
    its ++ (match ne with | some t => toList t | none => [])
        ++ (match nw with | some t => toList t | none => [])
        ++ (match se with | some t => toList t | none => [])
        ++ (match sw with | some t => toList t | none => [])

/-- Well-formedness of a quadtree node, an invariant of every tree the
program builds through `new` and `insert`: positive capacity `c` shared by
all nodes, non-negative boundary extent, stored items inside the boundary,
no children unless `divided`, and when `divided` all four children present
with the quadrant boundaries produced by `subdivide`. -/
inductive NodeWF : ℕ → QuadTreeNode → Prop where
  | mk {c : ℕ} {b : Rect} {its : List QuadTreeItem} {div : Bool}
      {ne nw se sw : Option QuadTreeNode}
      (hc : 1 ≤ c)
      (hw : 0 ≤ b.w) (hh : 0 ≤ b.h)
      (hits : ∀ it ∈ its, containsPoint b it.x it.y = true)
      (hleaf : div = false → ne = none ∧ nw = none ∧ se = none ∧ sw = none)
      (hsome : div = true →
        ne.isSome = true ∧ nw.isSome = true ∧ se.isSome = true ∧ sw.isSome = true)
      (hbne : ∀ t, ne = some t → t.boundary = neRect b)
      (hbnw : ∀ t, nw = some t → t.boundary = nwRect b)
      (hbse : ∀ t, se = some t → t.boundary = seRect b)
      (hbsw : ∀ t, sw = some t → t.boundary = swRect b)
      (hwfne : ∀ t, ne = some t → NodeWF c t)
      (hwfnw : ∀ t, nw = some t → NodeWF c t)
      (hwfse : ∀ t, se = some t → NodeWF c t)
      (hwfsw : ∀ t, sw = some t → NodeWF c t) :
      NodeWF c (.mk b c its div ne nw se sw)

theorem containsPoint_iff {r : Rect} {x y : ℚ} :
    containsPoint r x y = true ↔
      r.x ≤ x ∧ x ≤ r.x + r.w ∧ r.y ≤ y ∧ y ≤ r.y + r.h := by
  simp [containsPoint, and_assoc]

theorem intersects_iff {a b : Rect} :
    intersects a b = true ↔
      a.x ≤ b.x + b.w ∧ b.x ≤ a.x + a.w ∧ a.y ≤ b.y + b.h ∧ b.y ≤ a.y + a.h := by
  simp [intersects, not_lt, and_assoc]

/-- A point lying in both rectangles forces them to intersect; this is why
the query's pruning test never discards a subtree holding a match. -/
theorem intersects_of_mem {a b : Rect} {x y : ℚ}
    (ha : containsPoint a x y = true) (hb : containsPoint b x y = true) :
    intersects a b = true := by
  rw [containsPoint_iff] at ha hb
  rw [intersects_iff]
  obtain ⟨h1, h2, h3, h4⟩ := ha
  obtain ⟨h5, h6, h7, h8⟩ := hb
  exact ⟨le_trans h1 h6, le_trans h5 h2, le_trans h3 h8, le_trans h7 h4⟩

/-- Each quadrant is included in its parent rectangle. -/
theorem quadrant_subset {b : Rect} {x y : ℚ}
    (hw : 0 ≤ b.w) (hh : 0 ≤ b.h)
    (h : containsPoint (neRect b) x y = true ∨
         containsPoint (nwRect b) x y = true ∨
         containsPoint (seRect b) x y = true ∨
         containsPoint (swRect b) x y = true) :
    containsPoint b x y = true := by
  simp only [containsPoint_iff, neRect, nwRect, seRect, swRect] at h ⊢
  rcases h with h | h | h | h <;>
    obtain ⟨h1, h2, h3, h4⟩ := h <;>
    constructor <;> try constructor
  all_goals try constructor
  all_goals linarith

/-- The four quadrants cover the parent rectangle. -/
theorem quadrant_cover {b : Rect} {x y : ℚ}
    (h : containsPoint b x y = true) :
    containsPoint (neRect b) x y = true ∨
    containsPoint (nwRect b) x y = true ∨
    containsPoint (seRect b) x y = true ∨
    containsPoint (swRect b) x y = true := by
  rw [containsPoint_iff] at h
  obtain ⟨h1, h2, h3, h4⟩ := h
  simp only [containsPoint_iff, neRect, nwRect, seRect, swRect]
  rcases le_or_lt x (b.x + b.w / 2) with hx | hx <;>
    rcases le_or_lt y (b.y + b.h / 2) with hy | hy
  · exact Or.inr (Or.inl ⟨h1, by linarith, h3, by linarith⟩)
  · exact Or.inr (Or.inr (Or.inr ⟨h1, by linarith, by linarith, by linarith⟩))
  · exact Or.inl ⟨by linarith, by linarith, h3, by linarith⟩
  · exact Or.inr (Or.inr (Or.inl ⟨by linarith, by linarith, by linarith, by linarith⟩))

theorem heightN_pos (n : QuadTreeNode) : 1 ≤ heightN n := by
  cases n with
  | mk b c its div ne nw se sw => simp [heightN]

theorem heightN_ne_lt {t : QuadTreeNode} {b c its div nw se sw} :
    heightN t < heightN (.mk b c its div (some t) nw se sw) := by
  have h : heightN t ≤ max (max (heightN t) (heightN.hOpt nw))
      (max (heightN.hOpt se) (heightN.hOpt sw)) :=
    le_trans (le_max_left _ _) (le_max_left _ _)
  simp only [heightN, heightN.hOpt]
  omega

theorem heightN_nw_lt {t : QuadTreeNode} {b c its div ne se sw} :
    heightN t < heightN (.mk b c its div ne (some t) se sw) := by
  have h : heightN t ≤ max (max (heightN.hOpt ne) (heightN t))
      (max (heightN.hOpt se) (heightN.hOpt sw)) :=
    le_trans (le_max_right _ _) (le_max_left _ _)
  simp only [heightN, heightN.hOpt]
  omega

theorem heightN_se_lt {t : QuadTreeNode} {b c its div ne nw sw} :
    heightN t < heightN (.mk b c its div ne nw (some t) sw) := by
  have h : heightN t ≤ max (max (heightN.hOpt ne) (heightN.hOpt nw))
      (max (heightN t) (heightN.hOpt sw)) :=
    le_trans (le_max_left _ _) (le_max_right _ _)
  simp only [heightN, heightN.hOpt]
  omega

theorem heightN_sw_lt {t : QuadTreeNode} {b c its div ne nw se} :
    heightN t < heightN (.mk b c its div ne nw se (some t)) := by
  have h : heightN t ≤ max (max (heightN.hOpt ne) (heightN.hOpt nw))
      (max (heightN.hOpt se) (heightN t)) :=
    le_trans (le_max_right _ _) (le_max_right _ _)
  simp only [heightN, heightN.hOpt]
  omega

/-- Induction principle for the nested inductive `QuadTreeNode`. -/
theorem nodeInd {P : QuadTreeNode → Prop}
    (h : ∀ b c its div ne nw se sw,
      (∀ t, ne = some t → P t) → (∀ t, nw = some t → P t) →
      (∀ t, se = some t → P t) → (∀ t, sw = some t → P t) →
      P (.mk b c its div ne nw se sw)) : ∀ n, P n := by
  have H : ∀ k n, heightN n ≤ k → P n := by
    intro k
    induction k with
    | zero =>
      intro n hn
      exact absurd (le_trans (heightN_pos n) hn) (by omega)
    | succ k ih =>
      intro n hn
      cases n with
      | mk b c its div ne nw se sw =>
        apply h <;> intro t ht <;> subst ht <;> apply ih
        · exact Nat.lt_succ_iff.mp (lt_of_lt_of_le heightN_ne_lt hn)
        · exact Nat.lt_succ_iff.mp (lt_of_lt_of_le heightN_nw_lt hn)
        · exact Nat.lt_succ_iff.mp (lt_of_lt_of_le heightN_se_lt hn)
        · exact Nat.lt_succ_iff.mp (lt_of_lt_of_le heightN_sw_lt hn)
  exact fun n => H (heightN n) n le_rfl

/-- The list a child contributes to `toList`. -/
def optList (o : Option QuadTreeNode) : List QuadTreeItem :=
  match o with
  | some t => toList t
  | none => []

theorem toList_eq (b : Rect) (c : ℕ) (its : List QuadTreeItem) (div : Bool)
    (ne nw se sw : Option QuadTreeNode) :
    toList (.mk b c its div ne nw se sw) =
      its ++ optList ne ++ optList nw ++ optList se ++ optList sw := by
  conv_lhs => rw [toList.eq_def]
  rfl

/-- The list a child contributes to `query`. -/
def optQuery (o : Option QuadTreeNode) (range : Rect) : List QuadTreeItem :=
  match o with
  | some t => query t range
  | none => []

theorem query_eq (b : Rect) (c : ℕ) (its : List QuadTreeItem) (div : Bool)
    (ne nw se sw : Option QuadTreeNode) (range : Rect) :
    query (.mk b c its div ne nw se sw) range =
      if intersects b range then
        its.filter (fun it => containsPoint range it.x it.y)
          ++ (if div then
                optQuery ne range ++ optQuery nw range
                  ++ optQuery se range ++ optQuery sw range
              else [])
      else [] := by
  conv_lhs => rw [query.eq_def]
  rfl

theorem mem_optList {o : Option QuadTreeNode} {it : QuadTreeItem}
    (h : it ∈ optList o) : ∃ t, o = some t ∧ it ∈ toList t := by
  cases o with
  | none => simp [optList] at h
  | some t => exact ⟨t, rfl, h⟩

/-- Every item stored anywhere in a well-formed node lies inside the
node's boundary. -/
theorem toList_in_boundary {c : ℕ} :
    ∀ n, NodeWF c n →
      ∀ it ∈ toList n, containsPoint n.boundary it.x it.y = true := by
  apply nodeInd
  intro b cc its div ne nw se sw ihne ihnw ihse ihsw hwf it hit
  cases hwf with
  | mk hc hw hh hits hleaf hsome hbne hbnw hbse hbsw hwfne hwfnw hwfse hwfsw =>
    rw [toList_eq] at hit
    simp only [List.mem_append] at hit
    show containsPoint b it.x it.y = true
    rcases hit with ((((hit | hit) | hit) | hit) | hit)
    · exact hits it hit
    · obtain ⟨t, hne, hmem⟩ := mem_optList hit
      have h := ihne t hne (hwfne t hne) it hmem
      rw [hbne t hne] at h
      exact quadrant_subset hw hh (Or.inl h)
    · obtain ⟨t, hnw, hmem⟩ := mem_optList hit
      have h := ihnw t hnw (hwfnw t hnw) it hmem
      rw [hbnw t hnw] at h
      exact quadrant_subset hw hh (Or.inr (Or.inl h))
    · obtain ⟨t, hse, hmem⟩ := mem_optList hit
      have h := ihse t hse (hwfse t hse) it hmem
      rw [hbse t hse] at h
      exact quadrant_subset hw hh (Or.inr (Or.inr (Or.inl h)))
    · obtain ⟨t, hsw, hmem⟩ := mem_optList hit
      have h := ihsw t hsw (hwfsw t hsw) it hmem
      rw [hbsw t hsw] at h
      exact quadrant_subset hw hh (Or.inr (Or.inr (Or.inr h)))

/-- On a well-formed tree the query is exactly the containment filter over
all stored items: intersection pruning loses nothing and the recursive
descent adds nothing. -/
theorem query_eq_filter {c : ℕ} :
    ∀ n, NodeWF c n → ∀ range,
      query n range = (toList n).filter (fun it => containsPoint range it.x it.y) := by
  apply nodeInd
  intro b cc its div ne nw se sw ihne ihnw ihse ihsw hwf range
  have hwf2 := hwf
  cases hwf with
  | mk hc hw hh hits hleaf hsome hbne hbnw hbse hbsw hwfne hwfnw hwfse hwfsw =>
    have hbdry := toList_in_boundary (c := c) _ hwf2
    by_cases hint : intersects b range = true
    · cases div with
      | false =>
        obtain ⟨h1, h2, h3, h4⟩ := hleaf rfl
        subst h1; subst h2; subst h3; subst h4
        rw [toList_eq, query_eq]
        simp [optList, optQuery, hint]
      | true =>
        obtain ⟨h1, h2, h3, h4⟩ := hsome rfl
        obtain ⟨tne, hne⟩ := Option.isSome_iff_exists.mp h1
        obtain ⟨tnw, hnw⟩ := Option.isSome_iff_exists.mp h2
        obtain ⟨tse, hse⟩ := Option.isSome_iff_exists.mp h3
        obtain ⟨tsw, hsw⟩ := Option.isSome_iff_exists.mp h4
        subst hne; subst hnw; subst hse; subst hsw
        rw [toList_eq, query_eq]
        simp only [hint, if_true, optList, optQuery]
        rw [ihne tne rfl (hwfne tne rfl) range, ihnw tnw rfl (hwfnw tnw rfl) range,
          ihse tse rfl (hwfse tse rfl) range, ihsw tsw rfl (hwfsw tsw rfl) range]
        simp [List.filter_append]
    · have hnone : ∀ it ∈ toList (QuadTreeNode.mk b c its div ne nw se sw),
          ¬ containsPoint range it.x it.y = true := by
        intro it hit hcont
        exact hint (intersects_of_mem (hbdry it hit) hcont)
      rw [List.filter_eq_nil_iff.mpr (by simpa using hnone), query_eq, if_neg hint]

theorem insertF_succ (f : ℕ) (b : Rect) (c : ℕ) (its : List QuadTreeItem)
    (div : Bool) (ne nw se sw : Option QuadTreeNode) (it : QuadTreeItem) :
    insertF (f + 1) (.mk b c its div ne nw se sw) it =
      if containsPoint b it.x it.y then
        if its.length < c then (.mk b c (its ++ [it]) div ne nw se sw, true)
        else if div then tryFour (insertF f) b c its ne nw se sw it
        else
          tryFour (insertF f) b c its
            (some (newNode (neRect b) c)) (some (newNode (nwRect b) c))
            (some (newNode (seRect b) c)) (some (newNode (swRect b) c)) it
      else (.mk b c its div ne nw se sw, false) := by
  conv_lhs => rw [insertF.eq_def]

/-- A well-formed undivided node with no children. -/
theorem NodeWF_leaf {c : ℕ} {b : Rect} {its : List QuadTreeItem}
    (hc : 1 ≤ c) (hw : 0 ≤ b.w) (hh : 0 ≤ b.h)
    (hits : ∀ it ∈ its, containsPoint b it.x it.y = true) :
    NodeWF c (.mk b c its false none none none none) :=
  NodeWF.mk hc hw hh hits (fun _ => ⟨rfl, rfl, rfl, rfl⟩)
    (fun h => by cases h)
    (fun t ht => by cases ht) (fun t ht => by cases ht)
    (fun t ht => by cases ht) (fun t ht => by cases ht)
    (fun t ht => by cases ht) (fun t ht => by cases ht)
    (fun t ht => by cases ht) (fun t ht => by cases ht)

/-- A well-formed divided node with the four quadrant children. -/
theorem NodeWF_div {c : ℕ} {b : Rect} {its : List QuadTreeItem}
    {t1 t2 t3 t4 : QuadTreeNode}
    (hc : 1 ≤ c) (hw : 0 ≤ b.w) (hh : 0 ≤ b.h)
    (hits : ∀ it ∈ its, containsPoint b it.x it.y = true)
    (hb1 : t1.boundary = neRect b) (hb2 : t2.boundary = nwRect b)
    (hb3 : t3.boundary = seRect b) (hb4 : t4.boundary = swRect b)
    (hwf1 : NodeWF c t1) (hwf2 : NodeWF c t2)
    (hwf3 : NodeWF c t3) (hwf4 : NodeWF c t4) :
    NodeWF c (.mk b c its true (some t1) (some t2) (some t3) (some t4)) :=
  NodeWF.mk hc hw hh hits (fun h => by cases h)
    (fun _ => ⟨rfl, rfl, rfl, rfl⟩)
    (fun t ht => by cases ht; exact hb1) (fun t ht => by cases ht; exact hb2)
    (fun t ht => by cases ht; exact hb3) (fun t ht => by cases ht; exact hb4)
    (fun t ht => by cases ht; exact hwf1) (fun t ht => by cases ht; exact hwf2)
    (fun t ht => by cases ht; exact hwf3) (fun t ht => by cases ht; exact hwf4)

/-- Pull a cons out of the second summand of an append, up to
permutation. -/
theorem perm_cons_out {α : Type _} (p : List α) {X q : List α} {a : α}
    (h : List.Perm X (a :: q)) : List.Perm (p ++ X) (a :: (p ++ q)) :=
  (h.append_left p).trans List.perm_middle

/-- The behaviour of `insertF f` on a single node: on a contained point
the insertion succeeds, preserves well-formedness and the boundary, and
adds exactly one copy of the item; on a point outside the boundary it is
the identity and reports `false`. -/
def ChildIns (c f : ℕ) (t : QuadTreeNode) (it : QuadTreeItem) : Prop :=
  (containsPoint t.boundary it.x it.y = true →
    (insertF f t it).2 = true ∧ NodeWF c (insertF f t it).1 ∧
    (insertF f t it).1.boundary = t.boundary ∧
    List.Perm (toList (insertF f t it).1) (it :: toList t)) ∧
  (containsPoint t.boundary it.x it.y = false → insertF f t it = (t, false))

/-- Inserting into a fresh quadrant leaf (positive capacity) either stores
the item immediately or bounces off the containment test. -/
theorem insertF_newNode {f : ℕ} (hf : 1 ≤ f) (r : Rect) {c : ℕ} (hc : 1 ≤ c)
    (it : QuadTreeItem) :
    insertF f (newNode r c) it =
      if containsPoint r it.x it.y then
        (.mk r c [it] false none none none none, true)
      else (newNode r c, false) := by
  cases f with
  | zero => omega
  | succ f =>
    rw [newNode, insertF_succ]
    by_cases hcont : containsPoint r it.x it.y = true
    · simp [hcont, Nat.lt_of_lt_of_le Nat.zero_lt_one hc]
    · simp [hcont, newNode]

theorem childIns_newNode {f : ℕ} (hf : 1 ≤ f) (r : Rect) {c : ℕ} (hc : 1 ≤ c)
    (hw : 0 ≤ r.w) (hh : 0 ≤ r.h) (it : QuadTreeItem) :
    ChildIns c f (newNode r c) it := by
  constructor
  · intro hcont
    rw [newNode, boundary] at hcont
    rw [insertF_newNode hf r hc it, if_pos hcont]
    refine ⟨rfl, ?_, rfl, ?_⟩
    · exact NodeWF_leaf hc hw hh (by intro x hx; simp at hx; subst hx; exact hcont)
    · simp [toList_eq, optList, newNode]
  · intro hcont
    rw [newNode, boundary] at hcont
    rw [insertF_newNode hf r hc it, if_neg (by simp [hcont])]

/-- The child cascade of `insert` on a full node: when the item is inside
the parent boundary some child accepts it (the quadrants cover the
parent), the result is well-formed, and exactly one copy of the item is
added. -/
theorem tryFour_spec {c f : ℕ} {b : Rect} {its : List QuadTreeItem}
    {t1 t2 t3 t4 : QuadTreeNode} {it : QuadTreeItem}
    (hc : 1 ≤ c) (hw : 0 ≤ b.w) (hh : 0 ≤ b.h)
    (hits : ∀ x ∈ its, containsPoint b x.x x.y = true)
    (hb1 : t1.boundary = neRect b) (hb2 : t2.boundary = nwRect b)
    (hb3 : t3.boundary = seRect b) (hb4 : t4.boundary = swRect b)
    (hwf1 : NodeWF c t1) (hwf2 : NodeWF c t2)
    (hwf3 : NodeWF c t3) (hwf4 : NodeWF c t4)
    (hs1 : ChildIns c f t1 it) (hs2 : ChildIns c f t2 it)
    (hs3 : ChildIns c f t3 it) (hs4 : ChildIns c f t4 it)
    (hcont : containsPoint b it.x it.y = true) :
    ∀ r, r = tryFour (insertF f) b c its (some t1) (some t2) (some t3) (some t4) it →
      r.2 = true ∧ NodeWF c r.1 ∧ r.1.boundary = b ∧
      List.Perm (toList r.1)
        (it :: (its ++ (toList t1 ++ (toList t2 ++ (toList t3 ++ toList t4))))) := by
  intro r hr
  by_cases h1 : containsPoint t1.boundary it.x it.y = true
  · obtain ⟨ok1, wf1, bd1, pm1⟩ := hs1.1 h1
    have hred : r = (.mk b c its true (some (insertF f t1 it).1)
        (some t2) (some t3) (some t4), true) := by
      rw [hr]; simp [tryFour, insChild, ok1]
    rw [hred]
    refine ⟨rfl, ?_, rfl, ?_⟩
    · exact NodeWF_div hc hw hh hits (bd1.trans hb1) hb2 hb3 hb4 wf1 hwf2 hwf3 hwf4
    · rw [toList_eq]
      simp only [optList, List.append_assoc]
      exact perm_cons_out its (pm1.append_right _)
  · have h1f : containsPoint t1.boundary it.x it.y = false := by simpa using h1
    have e1 : insertF f t1 it = (t1, false) := hs1.2 h1f
    by_cases h2 : containsPoint t2.boundary it.x it.y = true
    · obtain ⟨ok2, wf2, bd2, pm2⟩ := hs2.1 h2
      have hred : r = (.mk b c its true (some t1) (some (insertF f t2 it).1)
          (some t3) (some t4), true) := by
        rw [hr]; simp [tryFour, insChild, e1, ok2]
      rw [hred]
      refine ⟨rfl, ?_, rfl, ?_⟩
      · exact NodeWF_div hc hw hh hits hb1 (bd2.trans hb2) hb3 hb4 hwf1 wf2 hwf3 hwf4
      · rw [toList_eq]
        simp only [optList, List.append_assoc]
        exact perm_cons_out its (perm_cons_out (toList t1) (pm2.append_right _))
    · have h2f : containsPoint t2.boundary it.x it.y = false := by simpa using h2
      have e2 : insertF f t2 it = (t2, false) := hs2.2 h2f
      by_cases h3 : containsPoint t3.boundary it.x it.y = true
      · obtain ⟨ok3, wf3, bd3, pm3⟩ := hs3.1 h3
        have hred : r = (.mk b c its true (some t1) (some t2)
            (some (insertF f t3 it).1) (some t4), true) := by
          rw [hr]; simp [tryFour, insChild, e1, e2, ok3]
        rw [hred]
        refine ⟨rfl, ?_, rfl, ?_⟩
        · exact NodeWF_div hc hw hh hits hb1 hb2 (bd3.trans hb3) hb4 hwf1 hwf2 wf3 hwf4
        · rw [toList_eq]
          simp only [optList, List.append_assoc]
          exact perm_cons_out its (perm_cons_out (toList t1)
            (perm_cons_out (toList t2) (pm3.append_right _)))
      · have h3f : containsPoint t3.boundary it.x it.y = false := by simpa using h3
        have e3 : insertF f t3 it = (t3, false) := hs3.2 h3f
        by_cases h4 : containsPoint t4.boundary it.x it.y = true
        · obtain ⟨ok4, wf4, bd4, pm4⟩ := hs4.1 h4
          have hred : r = (.mk b c its true (some t1) (some t2) (some t3)
              (some (insertF f t4 it).1), true) := by
            rw [hr]; simp [tryFour, insChild, e1, e2, e3, ok4]
          rw [hred]
          refine ⟨rfl, ?_, rfl, ?_⟩
          · exact NodeWF_div hc hw hh hits hb1 hb2 hb3 (bd4.trans hb4) hwf1 hwf2 hwf3 wf4
          · rw [toList_eq]
            simp only [optList, List.append_assoc]
            exact perm_cons_out its (perm_cons_out (toList t1)
              (perm_cons_out (toList t2) (perm_cons_out (toList t3) pm4)))
        · exfalso
          have h4f : containsPoint t4.boundary it.x it.y = false := by simpa using h4
          rcases quadrant_cover hcont with h | h | h | h
          · rw [← hb1] at h; rw [h] at h1f; cases h1f
          · rw [← hb2] at h; rw [h] at h2f; cases h2f
          · rw [← hb3] at h; rw [h] at h3f; cases h3f
          · rw [← hb4] at h; rw [h] at h4f; cases h4f

/-- Function `insertF` meets its node-level contract on every well-formed tree when
given fuel at least `heightN n + 1`. -/
theorem insertF_spec {c : ℕ} :
    ∀ f n it, NodeWF c n → heightN n + 1 ≤ f → ChildIns c f n it := by
  intro f
  induction f with
  | zero =>
    intro n it _ hfuel
    exact absurd (le_trans (Nat.succ_le_succ (heightN_pos n)) hfuel) (by omega)
  | succ f ih =>
    intro n it hwf hfuel
    cases n with
    | mk b cc its div ne nw se sw =>
      have hwf2 := hwf
      cases hwf with
      | mk hc hw hh hits hleaf hsome hbne hbnw hbse hbsw hwfne hwfnw hwfse hwfsw =>
        have hb : boundary (.mk b c its div ne nw se sw) = b := rfl
        constructor
        · intro hcont
          rw [hb] at hcont
          rw [insertF_succ, if_pos hcont]
          by_cases hlen : its.length < c
          · rw [if_pos hlen]
            refine ⟨rfl, ?_, rfl, ?_⟩
            · refine NodeWF.mk hc hw hh ?_ hleaf hsome hbne hbnw hbse hbsw
                hwfne hwfnw hwfse hwfsw
              intro x hx
              rcases List.mem_append.mp hx with hx | hx
              · exact hits x hx
              · rw [List.mem_singleton.mp hx]; exact hcont
            · rw [toList_eq, toList_eq]
              simp only [List.append_assoc, List.singleton_append]
              exact List.perm_middle
          · rw [if_neg hlen]
            have hfuel2 : heightN (QuadTreeNode.mk b c its div ne nw se sw) ≤ f := by
              omega
            cases div with
            | true =>
              obtain ⟨i1, i2, i3, i4⟩ := hsome rfl
              obtain ⟨t1, hne⟩ := Option.isSome_iff_exists.mp i1
              obtain ⟨t2, hnw⟩ := Option.isSome_iff_exists.mp i2
              obtain ⟨t3, hse⟩ := Option.isSome_iff_exists.mp i3
              obtain ⟨t4, hsw⟩ := Option.isSome_iff_exists.mp i4
              subst hne; subst hnw; subst hse; subst hsw
              have f1 : heightN t1 + 1 ≤ f :=
                le_trans (Nat.succ_le_of_lt heightN_ne_lt) hfuel2
              have f2 : heightN t2 + 1 ≤ f :=
                le_trans (Nat.succ_le_of_lt heightN_nw_lt) hfuel2
              have f3 : heightN t3 + 1 ≤ f :=
                le_trans (Nat.succ_le_of_lt heightN_se_lt) hfuel2
              have f4 : heightN t4 + 1 ≤ f :=
                le_trans (Nat.succ_le_of_lt heightN_sw_lt) hfuel2
              have hspec := tryFour_spec hc hw hh hits
                (hbne t1 rfl) (hbnw t2 rfl) (hbse t3 rfl) (hbsw t4 rfl)
                (hwfne t1 rfl) (hwfnw t2 rfl) (hwfse t3 rfl) (hwfsw t4 rfl)
                (ih t1 it (hwfne t1 rfl) f1) (ih t2 it (hwfnw t2 rfl) f2)
                (ih t3 it (hwfse t3 rfl) f3) (ih t4 it (hwfsw t4 rfl) f4)
                hcont _ rfl
              refine ⟨hspec.1, hspec.2.1, hspec.2.2.1, ?_⟩
              refine hspec.2.2.2.trans ?_
              rw [toList_eq]
              simp [optList, List.append_assoc]
            | false =>
              obtain ⟨j1, j2, j3, j4⟩ := hleaf rfl
              subst j1; subst j2; subst j3; subst j4
              have hf1 : 1 ≤ f := le_trans (heightN_pos _) hfuel2
              have hwq : 0 ≤ b.w / 2 := by linarith
              have hhq : 0 ≤ b.h / 2 := by linarith
              have hspec := @tryFour_spec c f b its
                (newNode (neRect b) c) (newNode (nwRect b) c)
                (newNode (seRect b) c) (newNode (swRect b) c) it
                hc hw hh hits
                rfl rfl rfl rfl
                (NodeWF_leaf hc hwq hhq (by intro x hx; cases hx))
                (NodeWF_leaf hc hwq hhq (by intro x hx; cases hx))
                (NodeWF_leaf hc hwq hhq (by intro x hx; cases hx))
                (NodeWF_leaf hc hwq hhq (by intro x hx; cases hx))
                (childIns_newNode hf1 _ hc hwq hhq it)
                (childIns_newNode hf1 _ hc hwq hhq it)
                (childIns_newNode hf1 _ hc hwq hhq it)
                (childIns_newNode hf1 _ hc hwq hhq it)
                hcont _ rfl
              refine ⟨hspec.1, hspec.2.1, hspec.2.2.1, ?_⟩
              refine hspec.2.2.2.trans ?_
              rw [toList_eq]
              simp [optList, newNode, toList_eq]
        · intro hcont
          rw [hb] at hcont
          rw [insertF_succ, if_neg (by simp [hcont])]

/-- Function `QuadTreeNode.insert` (fuel instantiated) meets the node-level
contract on every well-formed tree. -/
theorem insert_spec {c : ℕ} {n : QuadTreeNode} (it : QuadTreeItem)
    (hwf : NodeWF c n) :
    (containsPoint n.boundary it.x it.y = true →
      (insert n it).2 = true ∧ NodeWF c (insert n it).1 ∧
      (insert n it).1.boundary = n.boundary ∧
      List.Perm (toList (insert n it).1) (it :: toList n)) ∧
    (containsPoint n.boundary it.x it.y = false → insert n it = (n, false)) :=
  insertF_spec (heightN n + 1) n it hwf le_rfl

/-- Fold a list of insertions into a node (`insert` in a loop, keeping the
updated tree and discarding the success flag, as every caller in
`mainstate.rs` does). -/
def insertAll (n : QuadTreeNode) (l : List QuadTreeItem) : QuadTreeNode :=
  l.foldl (fun n it => (insert n it).1) n

theorem insertAll_nil (n : QuadTreeNode) : insertAll n [] = n := rfl

theorem insertAll_cons (n : QuadTreeNode) (it : QuadTreeItem)
    (l : List QuadTreeItem) :
    insertAll n (it :: l) = insertAll (insert n it).1 l := rfl

theorem insertAll_append (n : QuadTreeNode) (l1 l2 : List QuadTreeItem) :
    insertAll n (l1 ++ l2) = insertAll (insertAll n l1) l2 :=
  List.foldl_append _ _ _ _

/-- Inserting a list of points all inside the boundary of a well-formed
tree succeeds pointwise: the boundary is preserved, well-formedness is
preserved, and the stored multiset grows by exactly the inserted list. -/
theorem insertAll_spec {c : ℕ} :
    ∀ (l : List QuadTreeItem) (n : QuadTreeNode), NodeWF c n →
      (∀ it ∈ l, containsPoint n.boundary it.x it.y = true) →
      NodeWF c (insertAll n l) ∧ (insertAll n l).boundary = n.boundary ∧
      List.Perm (toList (insertAll n l)) (l ++ toList n) := by
  intro l
  induction l with
  | nil => intro n hwf _; exact ⟨hwf, rfl, by simp [insertAll_nil]⟩
  | cons a l ih =>
    intro n hwf hin
    obtain ⟨ok, wf1, bd1, pm1⟩ := (insert_spec a hwf).1 (hin a (by simp))
    have hin2 : ∀ it ∈ l, containsPoint (insert n a).1.boundary it.x it.y = true := by
      intro it hit
      rw [bd1]
      exact hin it (by simp [hit])
    obtain ⟨wf2, bd2, pm2⟩ := ih (insert n a).1 wf1 hin2
    rw [insertAll_cons]
    refine ⟨wf2, bd2.trans bd1, ?_⟩
    refine pm2.trans ?_
    refine ((pm1.append_left l).trans List.perm_middle).trans ?_
    exact List.Perm.refl _

end QuadTreeNode

/-- The `QuadTree` wrapper from `quadtree.rs`: just the root node. -/
structure QuadTree : Type where
  root : QuadTreeNode

namespace QuadTree

/-- Method `QuadTree::new`. -/
def new (b : Rect) (c : ℕ) : QuadTree :=
  ⟨QuadTreeNode.newNode b c⟩

/-- Method `QuadTree::insert`: delegates to the root and discards the success
flag. -/
def insert (q : QuadTree) (it : QuadTreeItem) : QuadTree :=
  ⟨(q.root.insert it).1⟩

/-- Method `QuadTree::query`: collects from the root into a fresh vector. -/
def query (q : QuadTree) (range : Rect) : List QuadTreeItem :=
  q.root.query range

end QuadTree

/-! ## The terrain state of `MainState` (`mainstate.rs`)

Only the simulation-relevant fields are modelled: the terrain grid, the
terrain quadtree and the dirty flag.  The global configuration read
through `read_terrain_width()`, `read_terrain_height()` and
`read_cell_size()` is passed as parameters `W`, `H`, `cs`. -/

/-- The simulation fields of `MainState`. -/
structure MState : Type where
  terrain : List (List Cell)
  terrain_quadtree : QuadTree
  quadtree_dirty : Bool

/-- Read `terrain[x][y]` totally (all theorems operate on grids of the
declared `W × H` shape, where the defaults are never reached). -/
def cellAt (t : List (List Cell)) (x y : ℕ) : Cell :=
  (t.getD x []).getD y ⟨Material.Air, 0⟩

/-- Write `terrain[x][y] = c`. -/
def setCell (t : List (List Cell)) (x y : ℕ) (c : Cell) : List (List Cell) :=
  t.set x ((t.getD x []).set y c)

/-- A terrain grid with the declared shape: `W` rows of `H` cells (the
source indexes the outer vector by `x` and the inner by `y`). -/
def terrainSized (t : List (List Cell)) (W H : ℕ) : Prop :=
  t.length = W ∧ ∀ row ∈ t, row.length = H

/-- The anchor point of cell `(tx, ty)`: the cell centroid
`(tx * cell_size + cell_size / 2, ty * cell_size + cell_size / 2)` with
its grid indices as back-reference. -/
def centroidItem (tx ty : ℕ) (cs : ℚ) : QuadTreeItem :=
  ⟨(tx : ℚ) * cs + cs / 2, (ty : ℚ) * cs + cs / 2, tx, ty⟩

/-- The full-arena rectangle `(0, 0, W * cell_size, H * cell_size)` used
as quadtree boundary by both rebuilds. -/
def arenaRect (W H : ℕ) (cs : ℚ) : Rect :=
  ⟨0, 0, (W : ℚ) * cs, (H : ℚ) * cs⟩

/-- Method `MainState::damage_terrain_at`.  The source reads
`self.terrain[x][y]` (line 329) *before* the `x < read_terrain_width() &&
y < read_terrain_height()` test (line 343), so an out-of-bounds
coordinate is an index-out-of-bounds panic, modelled as `none`.  The
sound-playing block mutates only the audio sinks and is therefore not part
of the modelled state.  Returns the updated state and the returned
`Material` (the cell's material *after* the mutation). -/
def damage_terrain_at (W H : ℕ) (st : MState) (x y : ℕ) (amount : ℚ)
    (ignore_durability : Bool) : Option (MState × Material) :=
  match st.terrain.get? x with
  | none => none
  | some row =>
    match row.get? y with
    | none => none
    | some cell =>
      if x < W ∧ y < H then
        if cell.material ≠ Material.Air then
          if ignore_durability then
            some ({ st with terrain := setCell st.terrain x y ⟨Material.Air, 0⟩,
                            quadtree_dirty := true }, Material.Air)
          else if cell.durability - amount ≤ 0 then
            some ({ st with terrain := setCell st.terrain x y ⟨Material.Air, 0⟩,
                            quadtree_dirty := true }, Material.Air)
          else
            some ({ st with
                      terrain := setCell st.terrain x y
                        ⟨cell.material, cell.durability - amount⟩,
                      quadtree_dirty := true }, cell.material)
        else some (st, cell.material)
      else some (st, Material.Air)

/-- The insertion sequence performed by the dirty-flag rebuild
(`update_quadtree_if_needed`): the centroid of every non-air cell, in loop
order. -/
def rebuildItems (t : List (List Cell)) (W H : ℕ) (cs : ℚ) :
    List QuadTreeItem :=
  (List.range W).flatMap (fun tx =>
    (List.range H).filterMap (fun ty =>
      if (cellAt t tx ty).material ≠ Material.Air
      then some (centroidItem tx ty cs) else none))

/-- Method `MainState::update_quadtree_if_needed`: when the dirty flag is set,
drop the quadtree, rebuild it from scratch (capacity 8) over the full
arena from the non-air cells, and reset the flag; otherwise do nothing. -/
def update_quadtree_if_needed (W H : ℕ) (cs : ℚ) (st : MState) : MState :=
  if st.quadtree_dirty then
    { st with
      terrain_quadtree :=
        (List.range W).foldl (fun qt tx =>
          (List.range H).foldl (fun qt ty =>
            if (cellAt st.terrain tx ty).material ≠ Material.Air
            then qt.insert (centroidItem tx ty cs) else qt) qt)
          (QuadTree.new (arenaRect W H cs) 8),
      quadtree_dirty := false }
  else st

/-- The noise scale constant `0.05` of `generate_terrain`. -/
def noiseScale : ℚ := 5 / 100

/-- The material/durability classification of `generate_terrain`: noise
below `-0.2` gives air, below `0.2` grass with durability 1, otherwise
rock with durability 8. -/
def classifyNoise (v : ℚ) : Cell :=
  if v < -(2/10) then ⟨Material.Air, 0⟩
  else if v < 2/10 then ⟨Material.Grass, 1⟩
  else ⟨Material.Rock, 8⟩

/-- The terrain grid produced by `MainState::generate_terrain`, with the
external noise generator abstracted as a function `noise` of the sampled
coordinates `(x * scale, y * scale)`. -/
def generateTerrainGrid (noise : ℚ → ℚ → ℚ) (W H : ℕ) :
    List (List Cell) :=
  (List.range W).map (fun x =>
    (List.range H).map (fun y =>
      classifyNoise (noise ((x : ℚ) * noiseScale) ((y : ℚ) * noiseScale))))

/-- The quadtree rebuilt at the end of `MainState::generate_terrain`
(lines 306–322): a fresh tree with capacity 8 into which the centroid of
*every* cell is inserted — the loop has no material filter, so the tree
does not depend on the terrain contents at all. -/
def generateTerrainTree (W H : ℕ) (cs : ℚ) : QuadTree :=
  (List.range W).foldl (fun qt tx =>
    (List.range H).foldl (fun qt ty =>
      qt.insert (centroidItem tx ty cs)) qt)
    (QuadTree.new (arenaRect W H cs) 8)

/-! ## Rebuild loops as insertion sequences -/

open QuadTreeNode in
theorem foldl_insert_filterMap_root (P : ℕ → Prop) [DecidablePred P]
    (g : ℕ → QuadTreeItem) (l : List ℕ) (q : QuadTree) :
    (l.foldl (fun qt i => if P i then qt.insert (g i) else qt) q).root =
      insertAll q.root (l.filterMap (fun i => if P i then some (g i) else none)) := by
  induction l generalizing q with
  | nil => rfl
  | cons a l ih =>
    by_cases hp : P a
    · rw [List.foldl_cons, if_pos hp, ih, List.filterMap_cons, if_pos hp,
        insertAll_cons]
      rfl
    · rw [List.foldl_cons, if_neg hp, ih, List.filterMap_cons, if_neg hp]

open QuadTreeNode in
theorem foldl_insert_map_root (g : ℕ → QuadTreeItem) (l : List ℕ)
    (q : QuadTree) :
    (l.foldl (fun qt i => qt.insert (g i)) q).root =
      insertAll q.root (l.map g) := by
  induction l generalizing q with
  | nil => rfl
  | cons a l ih =>
    rw [List.foldl_cons, ih, List.map_cons, insertAll_cons]
    rfl

open QuadTreeNode in
theorem foldl_outer_root (inner : ℕ → List QuadTreeItem)
    (step : QuadTree → ℕ → QuadTree) (l : List ℕ)
    (h : ∀ q i, (step q i).root = insertAll q.root (inner i)) :
    ∀ q : QuadTree, (l.foldl step q).root =
      insertAll q.root (l.flatMap inner) := by
  induction l with
  | nil => intro q; rfl
  | cons a l ih =>
    intro q
    simp only [List.foldl_cons, List.flatMap_cons, insertAll_append]
    rw [ih, h]

/-- The dirty-flag rebuild is the insertion of `rebuildItems` into a fresh
capacity-8 tree over the full arena, and it resets the flag. -/
theorem update_quadtree_if_needed_root (W H : ℕ) (cs : ℚ) (st : MState)
    (hd : st.quadtree_dirty = true) :
    (update_quadtree_if_needed W H cs st).terrain_quadtree.root =
      QuadTreeNode.insertAll (QuadTreeNode.newNode (arenaRect W H cs) 8)
        (rebuildItems st.terrain W H cs) ∧
    (update_quadtree_if_needed W H cs st).quadtree_dirty = false ∧
    (update_quadtree_if_needed W H cs st).terrain = st.terrain := by
  rw [update_quadtree_if_needed, if_pos hd]
  refine ⟨?_, rfl, rfl⟩
  rw [rebuildItems]
  exact foldl_outer_root _ _ _
    (fun q tx => foldl_insert_filterMap_root
      (fun ty => (cellAt st.terrain tx ty).material ≠ Material.Air)
      (fun ty => centroidItem tx ty cs) (List.range H) q) _

/-- All cell centroids in loop order, the insertion sequence of the
generation-time rebuild. -/
def allCentroids (W H : ℕ) (cs : ℚ) : List QuadTreeItem :=
  (List.range W).flatMap (fun tx =>
    (List.range H).map (fun ty => centroidItem tx ty cs))

/-- The generation-time rebuild inserts the centroid of every cell. -/
theorem generateTerrainTree_root (W H : ℕ) (cs : ℚ) :
    (generateTerrainTree W H cs).root =
      QuadTreeNode.insertAll (QuadTreeNode.newNode (arenaRect W H cs) 8)
        (allCentroids W H cs) := by
  rw [generateTerrainTree, allCentroids]
  exact foldl_outer_root _ _ _
    (fun q tx => foldl_insert_map_root (fun ty => centroidItem tx ty cs)
      (List.range H) q) _

/-- Cell centroids of in-range cells lie inside the arena rectangle. -/
theorem centroid_in_arena {W H : ℕ} {cs : ℚ} (hcs : 0 ≤ cs) {tx ty : ℕ}
    (htx : tx < W) (hty : ty < H) :
    QuadTreeNode.containsPoint (arenaRect W H cs)
      (centroidItem tx ty cs).x (centroidItem tx ty cs).y = true := by
  rw [QuadTreeNode.containsPoint_iff]
  have hx1 : (0 : ℚ) ≤ (tx : ℚ) * cs := mul_nonneg (Nat.cast_nonneg tx) hcs
  have hy1 : (0 : ℚ) ≤ (ty : ℚ) * cs := mul_nonneg (Nat.cast_nonneg ty) hcs
  have hx2 : ((tx : ℚ) + 1) * cs ≤ (W : ℚ) * cs := by
    refine mul_le_mul_of_nonneg_right ?_ hcs
    exact_mod_cast Nat.succ_le_of_lt htx
  have hy2 : ((ty : ℚ) + 1) * cs ≤ (H : ℚ) * cs := by
    refine mul_le_mul_of_nonneg_right ?_ hcs
    exact_mod_cast Nat.succ_le_of_lt hty
  rw [add_mul, one_mul] at hx2 hy2
  simp only [arenaRect, centroidItem]
  refine ⟨by linarith, by linarith, by linarith, by linarith⟩

/-- Membership in the rebuild insertion sequence is exactly being the
centroid of an in-range non-air cell. -/
theorem mem_rebuildItems {t : List (List Cell)} {W H : ℕ} {cs : ℚ}
    {it : QuadTreeItem} :
    it ∈ rebuildItems t W H cs ↔
      ∃ tx ty, tx < W ∧ ty < H ∧
        (cellAt t tx ty).material ≠ Material.Air ∧
        it = centroidItem tx ty cs := by
  rw [rebuildItems]
  simp only [List.mem_flatMap, List.mem_filterMap, List.mem_range]
  constructor
  · rintro ⟨tx, htx, ty, hty, hsome⟩
    by_cases hmat : (cellAt t tx ty).material ≠ Material.Air
    · rw [if_pos hmat] at hsome
      exact ⟨tx, ty, htx, hty, hmat, (Option.some_inj.mp hsome).symm⟩
    · rw [if_neg hmat] at hsome
      cases hsome
  · rintro ⟨tx, ty, htx, hty, hmat, rfl⟩
    exact ⟨tx, htx, ty, hty, by rw [if_pos hmat]⟩

/-- The rebuild insertion sequence has no duplicates: the grid indices
stored in the items separate them. -/
theorem rebuildItems_nodup (t : List (List Cell)) (W H : ℕ) (cs : ℚ) :
    (rebuildItems t W H cs).Nodup := by
  rw [rebuildItems, List.nodup_flatMap]
  constructor
  · intro tx _
    refine List.Nodup.filterMap ?_ (List.nodup_range H)
    intro a a' b hb hb'
    have ha : b.ty = a := by
      by_cases h : (cellAt t tx a).material ≠ Material.Air
      · rw [if_pos h] at hb
        cases hb
        rfl
      · rw [if_neg h] at hb; cases hb
    have ha' : b.ty = a' := by
      by_cases h : (cellAt t tx a').material ≠ Material.Air
      · rw [if_pos h] at hb'
        cases hb'
        rfl
      · rw [if_neg h] at hb'; cases hb'
    rw [← ha, ha']
  · refine List.Pairwise.imp ?_ (List.pairwise_lt_range W)
    intro a b hab
    intro x hx hx'
    simp only [Function.onFun, List.mem_filterMap, List.mem_range] at hx hx'
    obtain ⟨ty, _, hsome⟩ := hx
    obtain ⟨ty', _, hsome'⟩ := hx'
    have hxa : x.tx = a := by
      by_cases h : (cellAt t a ty).material ≠ Material.Air
      · rw [if_pos h] at hsome
        cases hsome
        rfl
      · rw [if_neg h] at hsome; cases hsome
    have hxb : x.tx = b := by
      by_cases h : (cellAt t b ty').material ≠ Material.Air
      · rw [if_pos h] at hsome'
        cases hsome'
        rfl
      · rw [if_neg h] at hsome'; cases hsome'
    omega

theorem toList_newNode (b : Rect) (c : ℕ) :
    QuadTreeNode.toList (QuadTreeNode.newNode b c) = [] := by
  rw [QuadTreeNode.newNode, QuadTreeNode.toList_eq]
  rfl

/-! ## Claim theorems: the quadtree and the rebuilds -/

/-- C7: on any well-formed tree, inserting a point inside the root
boundary succeeds and a subsequent query with the zero-area rectangle at
the point's coordinate returns that point; a point outside the root
boundary is rejected (`insert` returns `false`), the tree is unchanged,
and — unless an equal item was already stored — no subsequent query ever
returns it. -/
theorem C7_insert_query_roundtrip {c : ℕ} (n : QuadTreeNode)
    (it : QuadTreeItem) (hwf : QuadTreeNode.NodeWF c n) :
    (QuadTreeNode.containsPoint n.boundary it.x it.y = true →
      (QuadTreeNode.insert n it).2 = true ∧
      it ∈ QuadTreeNode.query (QuadTreeNode.insert n it).1
        ⟨it.x, it.y, 0, 0⟩) ∧
    (QuadTreeNode.containsPoint n.boundary it.x it.y = false →
      QuadTreeNode.insert n it = (n, false) ∧
      (it ∉ QuadTreeNode.toList n → ∀ range,
        it ∉ QuadTreeNode.query (QuadTreeNode.insert n it).1 range)) := by
  obtain ⟨hsucc, hfail⟩ := QuadTreeNode.insert_spec it hwf
  constructor
  · intro h
    obtain ⟨ok, wf1, _, pm⟩ := hsucc h
    refine ⟨ok, ?_⟩
    rw [QuadTreeNode.query_eq_filter _ wf1, List.mem_filter]
    refine ⟨pm.mem_iff.mpr (by simp), ?_⟩
    rw [QuadTreeNode.containsPoint_iff]
    refine ⟨le_refl _, by simp, le_refl _, by simp⟩
  · intro h
    have e := hfail h
    refine ⟨e, ?_⟩
    intro hnot range hmem
    rw [e] at hmem
    rw [QuadTreeNode.query_eq_filter _ hwf, List.mem_filter] at hmem
    exact hnot hmem.1

theorem C7_witness :
    (QuadTreeNode.insert (QuadTreeNode.newNode ⟨0, 0, 10, 10⟩ 4)
      ⟨3, 4, 0, 0⟩).2 = true ∧
    (⟨3, 4, 0, 0⟩ : QuadTreeItem) ∈ QuadTreeNode.query
      (QuadTreeNode.insert (QuadTreeNode.newNode ⟨0, 0, 10, 10⟩ 4)
        ⟨3, 4, 0, 0⟩).1 ⟨3, 4, 0, 0⟩ :=
  (C7_insert_query_roundtrip (c := 4) _ _
    (QuadTreeNode.NodeWF_leaf (by norm_num) (by norm_num) (by norm_num)
      (by intro x hx; cases hx))).1
    (QuadTreeNode.containsPoint_iff.mpr
      (by norm_num [QuadTreeNode.boundary]))

/-- C2 (amended): after the dirty-flag rebuild
(`update_quadtree_if_needed` on a dirty state), querying the index with
the full arena rectangle returns exactly the set of currently non-empty
cell centroids — one anchor per non-empty cell, none for empty cells, no
duplicates — and the dirty flag is cleared.  (The generation-time rebuild
does *not* satisfy this: see the counterexample.) -/
theorem C2_dirty_rebuild_exact (W H : ℕ) (cs : ℚ) (hcs : 0 ≤ cs)
    (st : MState) (hd : st.quadtree_dirty = true) :
    List.Perm
      ((update_quadtree_if_needed W H cs st).terrain_quadtree.query
        (arenaRect W H cs))
      (rebuildItems st.terrain W H cs) ∧
    (rebuildItems st.terrain W H cs).Nodup ∧
    (∀ it, it ∈ rebuildItems st.terrain W H cs ↔
      ∃ tx ty, tx < W ∧ ty < H ∧
        (cellAt st.terrain tx ty).material ≠ Material.Air ∧
        it = centroidItem tx ty cs) ∧
    (update_quadtree_if_needed W H cs st).quadtree_dirty = false := by
  obtain ⟨hroot, hflag, -⟩ := update_quadtree_if_needed_root W H cs st hd
  have hwf0 : QuadTreeNode.NodeWF 8
      (QuadTreeNode.newNode (arenaRect W H cs) 8) :=
    QuadTreeNode.NodeWF_leaf (by norm_num)
      (mul_nonneg (Nat.cast_nonneg W) hcs)
      (mul_nonneg (Nat.cast_nonneg H) hcs)
      (by intro x hx; cases hx)
  have hin : ∀ it ∈ rebuildItems st.terrain W H cs,
      QuadTreeNode.containsPoint
        (QuadTreeNode.newNode (arenaRect W H cs) 8).boundary it.x it.y = true := by
    intro it hit
    obtain ⟨tx, ty, htx, hty, _, rfl⟩ := mem_rebuildItems.mp hit
    exact centroid_in_arena hcs htx hty
  obtain ⟨hwf, _, hperm⟩ :=
    QuadTreeNode.insertAll_spec (rebuildItems st.terrain W H cs) _ hwf0 hin
  refine ⟨?_, rebuildItems_nodup _ _ _ _, fun it => mem_rebuildItems, hflag⟩
  rw [QuadTree.query, hroot, QuadTreeNode.query_eq_filter _ hwf]
  have hperm2 := hperm.filter
    (fun it => QuadTreeNode.containsPoint (arenaRect W H cs) it.x it.y)
  refine hperm2.trans ?_
  rw [toList_newNode, List.append_nil, List.filter_eq_self.mpr]
  intro a ha
  obtain ⟨tx, ty, htx, hty, _, rfl⟩ := mem_rebuildItems.mp ha
  exact centroid_in_arena hcs htx hty

/-- C2 (counterexample): on a 1×1 grid with cell size 10 whose single
cell is generated as Air (constant noise −1), the generation-time rebuild
of `generate_terrain` still inserts the cell's centroid — the query of
the full arena returns the anchor of an *empty* cell, while the set of
non-empty cell centroids is empty.  The claimed invariant therefore fails
for the rebuild performed at the end of terrain generation. -/
theorem C2_generation_counterexample :
    (cellAt (generateTerrainGrid (fun _ _ => -1) 1 1) 0 0).material =
      Material.Air ∧
    (generateTerrainTree 1 1 10).query (arenaRect 1 1 10) =
      [centroidItem 0 0 10] ∧
    rebuildItems (generateTerrainGrid (fun _ _ => -1) 1 1) 1 1 10 = [] ∧
    (generateTerrainTree 1 1 10).query (arenaRect 1 1 10) ≠
      rebuildItems (generateTerrainGrid (fun _ _ => -1) 1 1) 1 1 10 := by
  have hclass : classifyNoise (-1) = ⟨Material.Air, 0⟩ := by
    rw [classifyNoise, if_pos (by norm_num)]
  have hgrid : generateTerrainGrid (fun _ _ => -1) 1 1 =
      [[(⟨Material.Air, 0⟩ : Cell)]] := by
    rw [show generateTerrainGrid (fun _ _ => -1) 1 1 =
      [[classifyNoise (-1)]] from rfl, hclass]
  have hcell : cellAt (generateTerrainGrid (fun _ _ => -1) 1 1) 0 0 =
      ⟨Material.Air, 0⟩ := by
    rw [hgrid]
    rfl
  have hall : allCentroids 1 1 10 = [centroidItem 0 0 10] := rfl
  have hwf0 : QuadTreeNode.NodeWF 8
      (QuadTreeNode.newNode (arenaRect 1 1 10) 8) :=
    QuadTreeNode.NodeWF_leaf (by norm_num) (by norm_num [arenaRect])
      (by norm_num [arenaRect]) (by intro x hx; cases hx)
  have hin : ∀ it ∈ allCentroids 1 1 10,
      QuadTreeNode.containsPoint
        (QuadTreeNode.newNode (arenaRect 1 1 10) 8).boundary it.x it.y = true := by
    rw [hall]
    intro it hit
    rw [List.mem_singleton.mp hit]
    exact centroid_in_arena (W := 1) (H := 1) (by norm_num)
      Nat.one_pos Nat.one_pos
  obtain ⟨hwf, -, hperm⟩ :=
    QuadTreeNode.insertAll_spec (allCentroids 1 1 10) _ hwf0 hin
  have h2 : List.Perm
      (QuadTreeNode.toList (QuadTreeNode.insertAll
        (QuadTreeNode.newNode (arenaRect 1 1 10) 8) (allCentroids 1 1 10)))
      [centroidItem 0 0 10] := by
    refine hperm.trans ?_
    rw [toList_newNode, hall]
    simp
  have hq : (generateTerrainTree 1 1 10).query (arenaRect 1 1 10) =
      [centroidItem 0 0 10] := by
    rw [QuadTree.query, generateTerrainTree_root,
      QuadTreeNode.query_eq_filter _ hwf]
    rw [List.filter_eq_self.mpr]
    · exact List.perm_singleton.mp h2
    · intro a ha
      have ha2 := h2.mem_iff.mp ha
      rw [List.mem_singleton.mp ha2]
      exact centroid_in_arena (W := 1) (H := 1) (by norm_num)
        Nat.one_pos Nat.one_pos
  have hnil : rebuildItems (generateTerrainGrid (fun _ _ => -1) 1 1) 1 1 10 = [] := by
    rw [List.eq_nil_iff_forall_not_mem]
    intro it hit
    obtain ⟨tx, ty, htx, hty, hmat, -⟩ := mem_rebuildItems.mp hit
    have htx0 : tx = 0 := by omega
    have hty0 : ty = 0 := by omega
    rw [htx0, hty0, hcell] at hmat
    exact hmat rfl
  refine ⟨by rw [hcell], hq, hnil, by rw [hq, hnil]; simp⟩

/-! ## Effects (`effect.rs` and the per-effect logic of `update_effects`) -/

/-- The exact rational value of the `f32` constant
`std::f32::consts::PI` (bit pattern `0x40490FDB`). -/
def PI32 : ℚ := 13176795 / 4194304

/-- The `EffectType` enum from `effect.rs`. -/
inductive EffectType : Type where
  | Bubbles : EffectType
  | MoreBubbles : EffectType
  | Lightning : EffectType
deriving DecidableEq, Repr

/-- The `Effect` struct from `effect.rs` (`started_at : Instant` modelled as a
rational timestamp). -/
structure Effect : Type where
  effect_type : EffectType
  position : ℚ × ℚ
  direction : ℚ
  started_at : ℚ
  spawned : Bool
deriving DecidableEq, Repr

/-- Method `Effect::bounce`: reflect the direction at the arena borders.  The
first test reads `position.0` (the x coordinate, `.1` of the Lean pair),
the second `position.1`; both can fire in the same call, the second then
negating the already-reflected direction. -/
def Effect.bounce (e : Effect) (terrain_width terrain_height : ℚ) : Effect :=
  let e1 := if e.position.1 ≤ 0 ∨ terrain_width ≤ e.position.1 then
      { e with direction := PI32 - e.direction } else e
  if e1.position.2 ≤ 0 ∨ terrain_height ≤ e1.position.2 then
    { e1 with direction := -e1.direction } else e1

/-- The `bounced` test of `update_effects` (lines 429–432): the effect
position is outside the arena on either axis. -/
def outsideArena (pos : ℚ × ℚ) (w h : ℚ) : Prop :=
  pos.1 ≤ 0 ∨ w ≤ pos.1 ∨ pos.2 ≤ 0 ∨ h ≤ pos.2

/-- Damage per effect kind (`update_effects`, lines 457–461). -/
def effectDamage : EffectType → ℚ
  | .Bubbles => 5
  | .MoreBubbles => 5
  | .Lightning => 10

/-- Whether the effect destroys regardless of durability
(`matches!(eff.effect_type, EffectType::Lightning)`). -/
def effectIgnoresDurability : EffectType → Bool
  | .Lightning => true
  | _ => false

/-- The query rectangle of `update_effects` (lines 445–450): origin at
`position - radius`, extent `radius * 2` on both axes. -/
def queryRectOf (pos : ℚ × ℚ) (radius : ℚ) : Rect :=
  ⟨pos.1 - radius, pos.2 - radius, radius * 2, radius * 2⟩

/-- The Manhattan distance used by the candidate test (line 455):
`(dx).abs() + (dy).abs()`. -/
def manhattanDist (p q : ℚ × ℚ) : ℚ :=
  |p.1 - q.1| + |p.2 - q.2|

/-- The candidates that pass the per-candidate damage test of the loop at
lines 452–456: returned by the quadtree query and within Manhattan
distance `radius`. -/
def damageCandidates (qt : QuadTree) (pos : ℚ × ℚ) (radius : ℚ) :
    List QuadTreeItem :=
  (qt.query (queryRectOf pos radius)).filter
    (fun c => manhattanDist pos (c.x, c.y) ≤ radius)

/-- The candidate loop of `update_effects` (lines 452–481) over a list of
candidates: skip candidates beyond the Manhattan radius, skip air cells
(`continue`), push a damage request `(tx, ty, dmg, ignore_durability)`
for the rest, and — when the cell would survive the hypothetical damage —
deflect the direction by `π` plus the random perturbation `rnd` and stop
the scan (`break`).  Returns the damage requests and the final
direction. -/
def scanLoop (terrain : List (List Cell)) (pos : ℚ × ℚ) (dir : ℚ)
    (dmg : ℚ) (ign : Bool) (radius : ℚ) (rnd : ℚ) :
    List QuadTreeItem → List (ℕ × ℕ × ℚ × Bool) × ℚ
  | [] => ([], dir)
  | c :: rest =>
    if manhattanDist pos (c.x, c.y) ≤ radius then
      if (cellAt terrain c.tx c.ty).material = Material.Air then
        scanLoop terrain pos dir dmg ign radius rnd rest
      else
        let remaining := if ign then 0
          else (cellAt terrain c.tx c.ty).durability - dmg
        if 0 < remaining then
          ([(c.tx, c.ty, dmg, ign)], dir + (PI32 + rnd))
        else
          let r := scanLoop terrain pos dir dmg ign radius rnd rest
          ((c.tx, c.ty, dmg, ign) :: r.1, r.2)
    else scanLoop terrain pos dir dmg ign radius rnd rest

/-- The full per-effect candidate processing: query the index with the
square of half-width `radius` centered on the (updated) effect position,
then run the candidate loop. -/
def scanCandidates (terrain : List (List Cell)) (qt : QuadTree)
    (pos : ℚ × ℚ) (dir : ℚ) (etype : EffectType) (radius rnd : ℚ) :
    List (ℕ × ℕ × ℚ × Bool) × ℚ :=
  scanLoop terrain pos dir (effectDamage etype)
    (effectIgnoresDurability etype) radius rnd
    (qt.query (queryRectOf pos radius))

/-- Every damage request emitted by the candidate loop comes from a listed
candidate within the Manhattan radius whose cell is not air. -/
theorem scanLoop_sound (terrain : List (List Cell)) (pos : ℚ × ℚ)
    (dir : ℚ) (dmg : ℚ) (ign : Bool) (radius : ℚ) (rnd : ℚ) :
    ∀ (l : List QuadTreeItem) (req : ℕ × ℕ × ℚ × Bool),
      req ∈ (scanLoop terrain pos dir dmg ign radius rnd l).1 →
      ∃ it ∈ l, manhattanDist pos (it.x, it.y) ≤ radius ∧
        (cellAt terrain it.tx it.ty).material ≠ Material.Air ∧
        req = (it.tx, it.ty, dmg, ign) := by
  intro l
  induction l with
  | nil => intro req h; simp [scanLoop] at h
  | cons c rest ih =>
    intro req h
    rw [scanLoop] at h
    by_cases h1 : manhattanDist pos (c.x, c.y) ≤ radius
    · rw [if_pos h1] at h
      by_cases h2 : (cellAt terrain c.tx c.ty).material = Material.Air
      · rw [if_pos h2] at h
        obtain ⟨it, hmem, hrest⟩ := ih req h
        exact ⟨it, List.mem_cons_of_mem c hmem, hrest⟩
      · rw [if_neg h2] at h
        by_cases h3 : (0 : ℚ) < if ign = true then 0
            else (cellAt terrain c.tx c.ty).durability - dmg
        · rw [if_pos h3] at h
          rw [List.mem_singleton.mp h]
          exact ⟨c, List.mem_cons_self c rest, h1, h2, rfl⟩
        · rw [if_neg h3] at h
          rcases List.mem_cons.mp h with h | h
          · exact ⟨c, List.mem_cons_self c rest, h1, h2, h⟩
          · obtain ⟨it, hmem, hrest⟩ := ih req h
            exact ⟨it, List.mem_cons_of_mem c hmem, hrest⟩
    · rw [if_neg h1] at h
      obtain ⟨it, hmem, hrest⟩ := ih req h
      exact ⟨it, List.mem_cons_of_mem c hmem, hrest⟩

/-! ## Claim theorems: effects -/

/-- C8: the boundary reflection transforms the heading to `π − heading`
when the position is outside the arena on the X axis only, to `−heading`
when outside on the Y axis only, and composes both (giving
`−(π − heading)`) when outside on both axes; in particular an effect at
`x = 0` (inside on Y) gets heading `π − heading`. -/
theorem C8_bounce_reflection (e : Effect) (w h : ℚ) :
    ((e.position.1 ≤ 0 ∨ w ≤ e.position.1) →
      ¬(e.position.2 ≤ 0 ∨ h ≤ e.position.2) →
      (e.bounce w h).direction = PI32 - e.direction) ∧
    (¬(e.position.1 ≤ 0 ∨ w ≤ e.position.1) →
      (e.position.2 ≤ 0 ∨ h ≤ e.position.2) →
      (e.bounce w h).direction = -e.direction) ∧
    ((e.position.1 ≤ 0 ∨ w ≤ e.position.1) →
      (e.position.2 ≤ 0 ∨ h ≤ e.position.2) →
      (e.bounce w h).direction = -(PI32 - e.direction)) ∧
    (e.position.1 = 0 → ¬(e.position.2 ≤ 0 ∨ h ≤ e.position.2) →
      (e.bounce w h).direction = PI32 - e.direction) := by
  refine ⟨?_, ?_, ?_, ?_⟩
  · intro hX hY
    rw [Effect.bounce]
    simp only [if_pos hX]
    rw [if_neg hY]
  · intro hX hY
    rw [Effect.bounce]
    simp only [if_neg hX]
    rw [if_pos hY]
  · intro hX hY
    rw [Effect.bounce]
    simp only [if_pos hX]
    rw [if_pos hY]
  · intro hX hY
    rw [Effect.bounce]
    simp only [if_pos (Or.inl (le_of_eq hX))]
    rw [if_neg hY]

theorem C8_witness :
    ((⟨EffectType.Bubbles, (0, 5), 1, 0, false⟩ : Effect).bounce 10 10).direction =
      PI32 - 1 :=
  (C8_bounce_reflection ⟨EffectType.Bubbles, (0, 5), 1, 0, false⟩ 10 10).1
    (by decide) (by decide)

/-- C10: `bounce` writes only the direction field — position, kind,
creation time and spawned flag are untouched — so an out-of-arena effect
stays out of the arena and the `bounced` test gives the same answer on the
next call at the same position. -/
theorem C10_bounce_frame (e : Effect) (w h : ℚ) :
    (e.bounce w h).position = e.position ∧
    (e.bounce w h).effect_type = e.effect_type ∧
    (e.bounce w h).started_at = e.started_at ∧
    (e.bounce w h).spawned = e.spawned ∧
    (outsideArena (e.bounce w h).position w h ↔ outsideArena e.position w h) := by
  have hfields : (e.bounce w h).position = e.position ∧
      (e.bounce w h).effect_type = e.effect_type ∧
      (e.bounce w h).started_at = e.started_at ∧
      (e.bounce w h).spawned = e.spawned := by
    rw [Effect.bounce]
    split <;> split <;> exact ⟨rfl, rfl, rfl, rfl⟩
  exact ⟨hfields.1, hfields.2.1, hfields.2.2.1, hfields.2.2.2,
    by rw [hfields.1]⟩

/-- C9: the damage candidates of one effect are drawn from a quadtree
query with the axis-aligned square of half-width `radius` (one cell size
in `update_effects`) centered on the effect's updated position, and a
returned candidate passes the damage test exactly when the Manhattan
distance `|dx| + |dy|` from the effect to its centroid is at most
`radius` (the emitted damage requests are covered by the separate lemma
`scanLoop_sound`). -/
theorem C9_manhattan_candidates (qt : QuadTree) (pos : ℚ × ℚ) (radius : ℚ) :
    (∀ it, it ∈ damageCandidates qt pos radius ↔
      it ∈ qt.query (queryRectOf pos radius) ∧
        manhattanDist pos (it.x, it.y) ≤ radius) ∧
    (∀ qx qy, QuadTreeNode.containsPoint (queryRectOf pos radius) qx qy = true ↔
      (|qx - pos.1| ≤ radius ∧ |qy - pos.2| ≤ radius)) := by
  refine ⟨?_, ?_⟩
  · intro it
    rw [damageCandidates, List.mem_filter, decide_eq_true_eq]
  · intro qx qy
    rw [QuadTreeNode.containsPoint_iff]
    simp only [queryRectOf]
    constructor
    · rintro ⟨h1, h2, h3, h4⟩
      constructor <;> rw [abs_le] <;> constructor <;> linarith
    · rintro ⟨h1, h2⟩
      rw [abs_le] at h1 h2
      refine ⟨by linarith [h1.2], by linarith [h1.1],
        by linarith [h2.2], by linarith [h2.1]⟩

/-! ## Damage operation: helper lemmas and claim theorems -/

theorem get?_eq_some_getD {α : Type _} (l : List α) (n : ℕ) (d : α)
    (h : n < l.length) : l.get? n = some (l.getD n d) := by
  rw [List.getD_eq_getElem?_getD, ← List.get?_eq_getElem?, List.get?_eq_get h]
  rfl

theorem getD_set_self {α : Type _} (l : List α) (n : ℕ) (a d : α)
    (h : n < l.length) : (l.set n a).getD n d = a := by
  rw [List.getD_eq_getElem?_getD]
  simp [List.getElem?_set, h]

theorem getD_mem {α : Type _} (l : List α) (n : ℕ) (d : α)
    (h : n < l.length) : l.getD n d ∈ l := by
  have := get?_eq_some_getD l n d h
  exact List.get?_mem this

theorem terrain_row_length {t : List (List Cell)} {W H x : ℕ}
    (hsz : terrainSized t W H) (hx : x < W) : (t.getD x []).length = H := by
  have hx' : x < t.length := by rw [hsz.1]; exact hx
  exact hsz.2 _ (getD_mem t x [] hx')

/-- On a grid of the declared shape, `damage_terrain_at` at in-range
coordinates reduces to the branch structure of the source: air cells are
left untouched, `ignore_durability` or exhausted durability zeroes the
cell and sets the dirty flag, otherwise the durability is decremented
(and the dirty flag is set as well). -/
theorem damage_spec {W H : ℕ} {st : MState} {x y : ℕ} (amount : ℚ)
    (ign : Bool) (hsz : terrainSized st.terrain W H) (hx : x < W)
    (hy : y < H) :
    damage_terrain_at W H st x y amount ign =
      if (cellAt st.terrain x y).material ≠ Material.Air then
        if ign = true then
          some ({ st with terrain := setCell st.terrain x y ⟨Material.Air, 0⟩,
                          quadtree_dirty := true }, Material.Air)
        else if (cellAt st.terrain x y).durability - amount ≤ 0 then
          some ({ st with terrain := setCell st.terrain x y ⟨Material.Air, 0⟩,
                          quadtree_dirty := true }, Material.Air)
        else
          some ({ st with
                    terrain := setCell st.terrain x y
                      ⟨(cellAt st.terrain x y).material,
                        (cellAt st.terrain x y).durability - amount⟩,
                    quadtree_dirty := true }, (cellAt st.terrain x y).material)
      else some (st, (cellAt st.terrain x y).material) := by
  have hx' : x < st.terrain.length := by rw [hsz.1]; exact hx
  have hrow : st.terrain.get? x = some (st.terrain.getD x []) :=
    get?_eq_some_getD _ _ _ hx'
  have hy' : y < (st.terrain.getD x []).length := by
    rw [terrain_row_length hsz hx]; exact hy
  have hcell : (st.terrain.getD x []).get? y = some (cellAt st.terrain x y) :=
    get?_eq_some_getD _ _ _ hy'
  simp only [damage_terrain_at, hrow, hcell]
  rw [if_pos (⟨hx, hy⟩ : x < W ∧ y < H)]

/-- C1 evaluation: the failing input.  On a 2×2 grid, calling
`damage_terrain_at(2, 0, 5.0, false)` panics (the source evaluates
`self.terrain[x][y]` on line 329 before the bounds test on line 343), so
the model returns `none` instead of being a no-op; on an in-bounds
already-Air cell the call is indeed a state-preserving no-op returning
`Air`. -/
theorem C1_out_of_bounds_panics :
    damage_terrain_at 2 2
      ⟨[[⟨Material.Grass, 1⟩, ⟨Material.Air, 0⟩],
        [⟨Material.Grass, 1⟩, ⟨Material.Grass, 1⟩]],
       QuadTree.new (arenaRect 2 2 5) 4, false⟩ 2 0 5 false = none ∧
    damage_terrain_at 2 2
      ⟨[[⟨Material.Grass, 1⟩, ⟨Material.Air, 0⟩],
        [⟨Material.Grass, 1⟩, ⟨Material.Grass, 1⟩]],
       QuadTree.new (arenaRect 2 2 5) 4, false⟩ 0 1 5 false =
      some (⟨[[⟨Material.Grass, 1⟩, ⟨Material.Air, 0⟩],
              [⟨Material.Grass, 1⟩, ⟨Material.Grass, 1⟩]],
             QuadTree.new (arenaRect 2 2 5) 4, false⟩, Material.Air) :=
  ⟨rfl, rfl⟩

/-- The cell invariant of the specification:
`material == Empty ⇔ durability == 0`, with non-negative durability. -/
def cellInv (c : Cell) : Prop :=
  (c.material = Material.Air ↔ c.durability = 0) ∧ 0 ≤ c.durability

/-- The invariant over a whole grid. -/
def terrainInv (t : List (List Cell)) : Prop :=
  ∀ row ∈ t, ∀ c ∈ row, cellInv c

instance : DecidablePred cellInv := by
  intro c
  rw [cellInv]
  infer_instance

instance (t : List (List Cell)) : Decidable (terrainInv t) := by
  rw [terrainInv]
  infer_instance

theorem cellInv_classifyNoise (v : ℚ) : cellInv (classifyNoise v) := by
  rw [classifyNoise]
  split
  · exact ⟨by simp, le_refl 0⟩
  · split
    · exact ⟨by simp, by norm_num⟩
    · exact ⟨by simp, by norm_num⟩

theorem terrainInv_setCell {t : List (List Cell)} {x y : ℕ} {c : Cell}
    (hinv : terrainInv t) (hc : cellInv c) :
    terrainInv (setCell t x y c) := by
  intro row hrow cc hcc
  rw [setCell] at hrow
  rcases List.mem_or_eq_of_mem_set hrow with hrow | hrow
  · exact hinv row hrow cc hcc
  · subst hrow
    rcases List.mem_or_eq_of_mem_set hcc with hcc | hcc
    · exact hinv _ (getD_mem_of_ne_nil hcc) _ hcc
    · subst hcc
      exact hc
where
  getD_mem_of_ne_nil {cc : Cell} (hcc : cc ∈ t.getD x []) :
      t.getD x [] ∈ t := by
    rcases Nat.lt_or_ge x t.length with hx | hx
    · exact getD_mem t x [] hx
    · rw [List.getD_eq_getElem?_getD, List.getElem?_eq_none (by simpa using hx)] at hcc
      cases hcc

instance (t : List (List Cell)) (W H : ℕ) : Decidable (terrainSized t W H) := by
  rw [terrainSized]
  infer_instance

/-- Whatever branch `damage_terrain_at` takes, the resulting terrain is
either unchanged, a cell zeroed to air, or a cell whose durability was
decremented but stayed positive. -/
theorem damage_terrain_cases {W H : ℕ} {st : MState} {x y : ℕ}
    {amount : ℚ} {ign : Bool} {st' : MState} {m : Material}
    (heq : damage_terrain_at W H st x y amount ign = some (st', m)) :
    st'.terrain = st.terrain ∨
    st'.terrain = setCell st.terrain x y ⟨Material.Air, 0⟩ ∨
    (∃ cell : Cell, cell.material ≠ Material.Air ∧
      ¬(cell.durability - amount ≤ 0) ∧
      st'.terrain = setCell st.terrain x y
        ⟨cell.material, cell.durability - amount⟩) := by
  cases hrow : st.terrain.get? x with
  | none =>
    simp only [damage_terrain_at, hrow] at heq
    exact Option.noConfusion heq
  | some row =>
    cases hcy : row.get? y with
    | none =>
      simp only [damage_terrain_at, hrow, hcy] at heq
      exact Option.noConfusion heq
    | some cell =>
      simp only [damage_terrain_at, hrow, hcy] at heq
      by_cases hb : x < W ∧ y < H
      · rw [if_pos hb] at heq
        by_cases hmat : cell.material ≠ Material.Air
        · rw [if_pos hmat] at heq
          cases ign with
          | true =>
            rw [if_pos rfl] at heq
            simp only [Option.some.injEq, Prod.mk.injEq] at heq
            exact Or.inr (Or.inl (by rw [← heq.1]))
          | false =>
            rw [if_neg (by simp)] at heq
            by_cases hd : cell.durability - amount ≤ 0
            · rw [if_pos hd] at heq
              simp only [Option.some.injEq, Prod.mk.injEq] at heq
              exact Or.inr (Or.inl (by rw [← heq.1]))
            · rw [if_neg hd] at heq
              simp only [Option.some.injEq, Prod.mk.injEq] at heq
              exact Or.inr (Or.inr ⟨cell, hmat, hd, by rw [← heq.1]⟩)
        · rw [if_neg hmat] at heq
          simp only [Option.some.injEq, Prod.mk.injEq] at heq
          exact Or.inl (by rw [← heq.1])
      · rw [if_neg hb] at heq
        simp only [Option.some.injEq, Prod.mk.injEq] at heq
        exact Or.inl (by rw [← heq.1])

/-- C3: the invariant `material == Empty ⇔ durability == 0` (with
non-negative durability) holds for every generated cell, is preserved by
every completed application of the damage operation, and forces every
non-empty cell to have strictly positive durability. -/
theorem C3_empty_iff_zero_durability :
    (∀ (noise : ℚ → ℚ → ℚ) (W H : ℕ),
      terrainInv (generateTerrainGrid noise W H)) ∧
    (∀ (W H : ℕ) (st : MState) (x y : ℕ) (amount : ℚ) (ign : Bool)
      (st' : MState) (m : Material),
      terrainInv st.terrain →
      damage_terrain_at W H st x y amount ign = some (st', m) →
      terrainInv st'.terrain) ∧
    (∀ c : Cell, cellInv c → c.material ≠ Material.Air → 0 < c.durability) := by
  refine ⟨?_, ?_, ?_⟩
  · intro noise W H row hrow c hc
    rw [generateTerrainGrid] at hrow
    obtain ⟨xx, -, rfl⟩ := List.mem_map.mp hrow
    obtain ⟨yy, -, rfl⟩ := List.mem_map.mp hc
    exact cellInv_classifyNoise _
  · intro W H st x y amount ign st' m hinv heq
    rcases damage_terrain_cases heq with h | h | ⟨cell, hmat, hd, h⟩
    · rw [h]; exact hinv
    · rw [h]
      exact terrainInv_setCell hinv ⟨by simp, le_refl 0⟩
    · rw [h]
      refine terrainInv_setCell hinv ⟨⟨fun hc => absurd hc hmat, ?_⟩, ?_⟩
      · intro hc
        exact absurd (le_of_eq hc) hd
      · exact le_of_lt (lt_of_not_le hd)
  · intro c hc hm
    rcases lt_or_eq_of_le hc.2 with h | h
    · exact h
    · exact absurd (hc.1.mpr h.symm) hm

theorem C3_witness :
    terrainInv [[(⟨Material.Air, 0⟩ : Cell)]] :=
  C3_empty_iff_zero_durability.2.1 1 1
    ⟨[[⟨Material.Rock, 8⟩]], QuadTree.new (arenaRect 1 1 5) 4, false⟩
    0 0 99 true
    ⟨[[⟨Material.Air, 0⟩]], QuadTree.new (arenaRect 1 1 5) 4, true⟩
    Material.Air (by decide) rfl

/-- C5 (amended): for every in-bounds damage call on a well-shaped grid,
the dirty flag afterwards is set iff it was set before or the damaged
cell was non-empty — i.e. *any* damage applied to a non-empty cell marks
the index dirty, also when only durability is subtracted and the material
does not change; a call on an already-empty cell leaves the whole state
(dirty flag included) unchanged. -/
theorem C5_dirty_on_any_damage (W H : ℕ) (st : MState) (x y : ℕ)
    (amount : ℚ) (ign : Bool) (hsz : terrainSized st.terrain W H)
    (hx : x < W) (hy : y < H) :
    ∀ st' m, damage_terrain_at W H st x y amount ign = some (st', m) →
      (st'.quadtree_dirty = true ↔
        (st.quadtree_dirty = true ∨
          (cellAt st.terrain x y).material ≠ Material.Air)) ∧
      ((cellAt st.terrain x y).material = Material.Air → st' = st) := by
  intro st' m heq
  rw [damage_spec amount ign hsz hx hy] at heq
  by_cases hmat : (cellAt st.terrain x y).material ≠ Material.Air
  · rw [if_pos hmat] at heq
    have hdirty : st'.quadtree_dirty = true := by
      by_cases hign : ign = true
      · rw [if_pos hign] at heq
        cases heq
        rfl
      · rw [if_neg hign] at heq
        by_cases hd : (cellAt st.terrain x y).durability - amount ≤ 0
        · rw [if_pos hd] at heq
          cases heq
          rfl
        · rw [if_neg hd] at heq
          cases heq
          rfl
    refine ⟨by rw [hdirty]; simp [hmat], fun hc => absurd hc hmat⟩
  · rw [if_neg hmat] at heq
    cases heq
    rw [not_not] at hmat
    refine ⟨by simp [hmat], fun _ => rfl⟩

theorem C5_witness :
    ((⟨[[⟨Material.Air, 0⟩]], QuadTree.new (arenaRect 1 1 5) 4,
        true⟩ : MState).quadtree_dirty = true ↔
      ((⟨[[⟨Material.Rock, 8⟩]], QuadTree.new (arenaRect 1 1 5) 4,
          false⟩ : MState).quadtree_dirty = true ∨
        (cellAt [[(⟨Material.Rock, 8⟩ : Cell)]] 0 0).material ≠
          Material.Air)) :=
  (C5_dirty_on_any_damage 1 1
    ⟨[[⟨Material.Rock, 8⟩]], QuadTree.new (arenaRect 1 1 5) 4, false⟩
    0 0 99 true (by decide) (by decide) (by decide)
    ⟨[[⟨Material.Air, 0⟩]], QuadTree.new (arenaRect 1 1 5) 4, true⟩
    Material.Air rfl).1

/-- C5 (counterexample): a damage of 5 on a rock cell of durability 8
subtracts durability without changing the material, yet sets the dirty
flag (line 368 of `mainstate.rs` runs for every non-air cell) — the
claimed equivalence "dirty is set iff the material changed" is false. -/
theorem C5_counterexample :
    damage_terrain_at 1 1
      ⟨[[⟨Material.Rock, 8⟩]], QuadTree.new (arenaRect 1 1 5) 4, false⟩
      0 0 5 false =
      some (⟨[[⟨Material.Rock, 3⟩]], QuadTree.new (arenaRect 1 1 5) 4,
        true⟩, Material.Rock) ∧
    (⟨[[⟨Material.Rock, 8⟩]], QuadTree.new (arenaRect 1 1 5) 4,
      false⟩ : MState).quadtree_dirty = false ∧
    (cellAt [[(⟨Material.Rock, 3⟩ : Cell)]] 0 0).material =
      (cellAt [[(⟨Material.Rock, 8⟩ : Cell)]] 0 0).material := by
  refine ⟨?_, rfl, rfl⟩
  rw [damage_spec 5 false (by decide) (by decide) (by decide)]
  have hcell : cellAt ([[(⟨Material.Rock, 8⟩ : Cell)]]) 0 0 =
      ⟨Material.Rock, 8⟩ := rfl
  rw [show (⟨[[⟨Material.Rock, 8⟩]], QuadTree.new (arenaRect 1 1 5) 4,
      false⟩ : MState).terrain = [[(⟨Material.Rock, 8⟩ : Cell)]] from rfl,
    hcell]
  rw [if_pos (by decide : (⟨Material.Rock, 8⟩ : Cell).material ≠ Material.Air)]
  rw [if_neg (by simp : ¬(false = true))]
  rw [if_neg (by norm_num : ¬((⟨Material.Rock, 8⟩ : Cell).durability - 5 ≤ 0))]
  have h3 : (⟨Material.Rock, 8⟩ : Cell).durability - 5 = 3 := by norm_num
  rw [h3]
  rfl

/-- Reading back the freshly written cell. -/
theorem cellAt_setCell_self {t : List (List Cell)} {W H x y : ℕ}
    (hsz : terrainSized t W H) (hx : x < W) (hy : y < H) (c : Cell) :
    cellAt (setCell t x y c) x y = c := by
  have hx' : x < t.length := by rw [hsz.1]; exact hx
  rw [cellAt, setCell, getD_set_self _ _ _ _ hx']
  exact getD_set_self _ _ _ _ (by rw [terrain_row_length hsz hx]; exact hy)

/-- C6: on an in-bounds non-empty cell, `damage_terrain_at` zeroes the
cell (material `Air`, durability 0) and sets the dirty flag when
`ignore_durability` holds or the durability would drop to 0 or below;
otherwise it subtracts exactly `amount` from the durability leaving the
material unchanged; and the returned material is the cell's material
after the mutation. -/
theorem C6_damage_result (W H : ℕ) (st : MState) (x y : ℕ) (amount : ℚ)
    (ign : Bool) (hsz : terrainSized st.terrain W H) (hx : x < W)
    (hy : y < H)
    (hmat : (cellAt st.terrain x y).material ≠ Material.Air) :
    ∃ st' m, damage_terrain_at W H st x y amount ign = some (st', m) ∧
      (if ign = true ∨ (cellAt st.terrain x y).durability - amount ≤ 0 then
        cellAt st'.terrain x y = ⟨Material.Air, 0⟩ ∧
          st'.quadtree_dirty = true
       else
        cellAt st'.terrain x y =
          ⟨(cellAt st.terrain x y).material,
            (cellAt st.terrain x y).durability - amount⟩) ∧
      m = (cellAt st'.terrain x y).material := by
  rw [damage_spec amount ign hsz hx hy, if_pos hmat]
  by_cases hign : ign = true
  · rw [if_pos hign]
    refine ⟨_, _, rfl, ?_, ?_⟩
    · rw [if_pos (Or.inl hign)]
      exact ⟨cellAt_setCell_self hsz hx hy _, rfl⟩
    · rw [cellAt_setCell_self hsz hx hy]
  · rw [if_neg hign]
    by_cases hd : (cellAt st.terrain x y).durability - amount ≤ 0
    · rw [if_pos hd]
      refine ⟨_, _, rfl, ?_, ?_⟩
      · rw [if_pos (Or.inr hd)]
        exact ⟨cellAt_setCell_self hsz hx hy _, rfl⟩
      · rw [cellAt_setCell_self hsz hx hy]
    · rw [if_neg hd]
      refine ⟨_, _, rfl, ?_, ?_⟩
      · rw [if_neg (by rw [not_or]; exact ⟨hign, hd⟩)]
        exact cellAt_setCell_self hsz hx hy _
      · rw [cellAt_setCell_self hsz hx hy]

theorem C6_witness :
    (damage_terrain_at 1 1
      ⟨[[⟨Material.Rock, 8⟩]], QuadTree.new (arenaRect 1 1 5) 4, false⟩
      0 0 99 true).isSome = true := by
  obtain ⟨st', m, heq, -, -⟩ := C6_damage_result 1 1
    ⟨[[⟨Material.Rock, 8⟩]], QuadTree.new (arenaRect 1 1 5) 4, false⟩
    0 0 99 true (by decide) (by decide) (by decide) (by decide)
  rw [heq]
  rfl

theorem C2_witness :
    (update_quadtree_if_needed 1 1 5
      ⟨[[⟨Material.Rock, 8⟩]], QuadTree.new (arenaRect 1 1 5) 4,
        true⟩).quadtree_dirty = false :=
  (C2_dirty_rebuild_exact 1 1 5 (by decide) _ rfl).2.2.2

/-! ## Sub-effect spawning (`update_effects`, lines 484–537)

The spawning block reads the shared `bubble_count` (an `AtomicUsize`)
with `load`, pushes children under the `new_effects` mutex, and then
`fetch_add`s the counter.  `randomSpawn` below packages the random draws
of one parent: the `random_bool` outcome, the `Bubbles` offset, the ten
`MoreBubbles` loop offsets, and the children's `Instant::now()`
timestamp. -/

/-- The random draws consumed by one parent's spawning block. -/
structure SpawnRand : Type where
  p : Bool
  offset : ℚ
  offsets : List ℚ
  ts : ℚ
deriving Repr

/-- The `MoreBubbles` inner loop (`for _ in 0..10`): stop as soon as the
counter reaches 10, otherwise push one child (heading offset by the
sampled amount) and increment the counter. -/
def mbLoop (eff : Effect) (ts : ℚ) : List ℚ → ℕ → List Effect × ℕ
  | [], count => ([], count)
  | o :: rest, count =>
    if 10 ≤ count then ([], count)
    else
      let r := mbLoop eff ts rest (count + 1)
      (⟨EffectType.MoreBubbles, eff.position, eff.direction + o, ts,
        true⟩ :: r.1, r.2)

/-- One parent's spawning block, sequential semantics: given the current
shared counter, return the newly pushed children, the updated counter and
the updated parent (the `spawned` flag is set exactly when children were
pushed). -/
def spawnStep (eff : Effect) (r : SpawnRand) (count : ℕ) :
    List Effect × ℕ × Effect :=
  if eff.spawned then ([], count, eff)
  else match eff.effect_type with
  | EffectType.Bubbles =>
    if r.p ∧ count < 10 then
      ([⟨EffectType.Bubbles, eff.position, eff.direction + r.offset, r.ts,
          true⟩,
        ⟨EffectType.Bubbles, eff.position, eff.direction - r.offset, r.ts,
          true⟩],
       count + 2, { eff with spawned := true })
    else ([], count, eff)
  | EffectType.MoreBubbles =>
    if r.p ∧ count < 10 ∧ eff.spawned = false then
      let l := mbLoop eff r.ts r.offsets count
      (l.1, l.2, { eff with spawned := true })
    else ([], count, eff)
  | EffectType.Lightning => ([], count, eff)

/-- Folding one parent into the accumulated `(new_effects, bubble_count)`
pair. -/
def spawnFoldStep (acc : List Effect × ℕ) (pr : Effect × SpawnRand) :
    List Effect × ℕ :=
  let r := spawnStep pr.1 pr.2 acc.2
  (acc.1 ++ r.1, r.2.1)

/-- One tick's spawning phase with the parents processed sequentially
(specification variant (a): no interleaving of the counter accesses). -/
def spawnTickSeq (parents : List (Effect × SpawnRand)) : List Effect × ℕ :=
  parents.foldl spawnFoldStep ([], 0)

theorem mbLoop_ge (eff : Effect) (ts : ℚ) (offs : List ℚ) (count : ℕ)
    (h : 10 ≤ count) : mbLoop eff ts offs count = ([], count) := by
  cases offs with
  | nil => rfl
  | cons o rest => rw [mbLoop, if_pos h]

theorem mbLoop_spec (eff : Effect) (ts : ℚ) :
    ∀ (offs : List ℚ) (count : ℕ), count < 10 →
      10 ≤ count + offs.length →
      (mbLoop eff ts offs count).2 = 10 ∧
      (mbLoop eff ts offs count).1.length + count = 10 := by
  intro offs
  induction offs with
  | nil => intro count h1 h2; simp at h2; omega
  | cons o rest ih =>
    intro count h1 h2
    rw [mbLoop, if_neg (by omega)]
    by_cases h10 : count + 1 < 10
    · have := ih (count + 1) h10 (by simp at h2 ⊢; omega)
      simp only [List.length_cons]
      omega
    · have hc9 : count + 1 = 10 := by omega
      rw [mbLoop_ge eff ts rest (count + 1) (by omega)]
      simp only [List.length_cons, List.length_nil]
      omega

theorem spawnStep_inv (eff : Effect) (r : SpawnRand) (count : ℕ)
    (hoff : r.offsets.length = 10)
    (hpar : Even count ∨ count = 10) (hle : count ≤ 10) :
    (spawnStep eff r count).2.1 ≤ 10 ∧
    (Even (spawnStep eff r count).2.1 ∨ (spawnStep eff r count).2.1 = 10) ∧
    (spawnStep eff r count).1.length + count = (spawnStep eff r count).2.1 := by
  rw [spawnStep]
  by_cases hsp : eff.spawned = true
  · rw [if_pos hsp]
    exact ⟨hle, hpar, by simp⟩
  · rw [if_neg hsp]
    cases htype : eff.effect_type with
    | Bubbles =>
      dsimp only
      by_cases hcond : r.p = true ∧ count < 10
      · rw [if_pos hcond]
        have heven : Even count := by
          rcases hpar with h | h
          · exact h
          · omega
        obtain ⟨k, hk⟩ := heven
        dsimp only
        refine ⟨by omega, Or.inl ⟨k + 1, by omega⟩, ?_⟩
        simp only [List.length_cons, List.length_nil]
        omega
      · rw [if_neg hcond]
        exact ⟨hle, hpar, by simp⟩
    | MoreBubbles =>
      dsimp only
      by_cases hcond : r.p = true ∧ count < 10 ∧ eff.spawned = false
      · rw [if_pos hcond]
        obtain ⟨h2, hlen⟩ := mbLoop_spec eff r.ts r.offsets count hcond.2.1
          (by rw [hoff]; omega)
        exact ⟨by simp [h2], Or.inr (by simp [h2]), by simp [h2, hlen]⟩
      · rw [if_neg hcond]
        exact ⟨hle, hpar, by simp⟩
    | Lightning =>
      dsimp only
      exact ⟨hle, hpar, by simp⟩

theorem spawnFold_inv :
    ∀ (parents : List (Effect × SpawnRand)) (acc : List Effect × ℕ),
      (∀ pr ∈ parents, pr.2.offsets.length = 10) →
      acc.1.length = acc.2 → (Even acc.2 ∨ acc.2 = 10) → acc.2 ≤ 10 →
      (parents.foldl spawnFoldStep acc).1.length =
        (parents.foldl spawnFoldStep acc).2 ∧
      (Even (parents.foldl spawnFoldStep acc).2 ∨
        (parents.foldl spawnFoldStep acc).2 = 10) ∧
      (parents.foldl spawnFoldStep acc).2 ≤ 10 := by
  intro parents
  induction parents with
  | nil => intro acc _ h1 h2 h3; exact ⟨h1, h2, h3⟩
  | cons pr rest ih =>
    intro acc hoff h1 h2 h3
    obtain ⟨s1, s2, s3⟩ := spawnStep_inv pr.1 pr.2 acc.2
      (hoff pr (by simp)) h2 h3
    rw [List.foldl_cons]
    refine ih _ (fun q hq => hoff q (by simp [hq])) ?_ s2 s1
    rw [spawnFoldStep]
    simp only [List.length_append]
    omega

/-- C4 (amended): each `Small` (`Bubbles`) parent spawns exactly 0 or 2
children in a tick (the two pushes happen under one mutex guard), and
under sequential per-effect processing the cumulative number of children
spawned in one tick never exceeds the shared cap of 10 (every
`MoreBubbles` loop runs 10 sampled iterations).  The parallel
check-then-add on the shared counter does *not* respect the cap: see the
counterexample. -/
theorem C4_spawn_cap_sequential (parents : List (Effect × SpawnRand))
    (hoff : ∀ pr ∈ parents, pr.2.offsets.length = 10) :
    (∀ (eff : Effect) (r : SpawnRand) (count : ℕ),
      eff.effect_type = EffectType.Bubbles →
      (spawnStep eff r count).1.length = 0 ∨
      (spawnStep eff r count).1.length = 2) ∧
    (spawnTickSeq parents).1.length = (spawnTickSeq parents).2 ∧
    (spawnTickSeq parents).2 ≤ 10 := by
  have hfold := spawnFold_inv parents ([], 0) hoff rfl (Or.inl ⟨0, rfl⟩)
    (by omega)
  refine ⟨?_, hfold.1, hfold.2.2⟩
  intro eff r count htype
  rw [spawnStep]
  by_cases hsp : eff.spawned = true
  · rw [if_pos hsp]; exact Or.inl rfl
  · rw [if_neg hsp, htype]
    dsimp only
    by_cases hcond : r.p = true ∧ count < 10
    · rw [if_pos hcond]; exact Or.inr rfl
    · rw [if_neg hcond]; exact Or.inl rfl

theorem C4_witness :
    (spawnTickSeq [(⟨EffectType.Bubbles, (1, 1), 0, 0, false⟩,
      ⟨true, 1, List.replicate 10 0, 0⟩)]).2 ≤ 10 :=
  (C4_spawn_cap_sequential
    [(⟨EffectType.Bubbles, (1, 1), 0, 0, false⟩,
      ⟨true, 1, List.replicate 10 0, 0⟩)] (by decide)).2.2

/-! ### The parallel counter race

`update_effects` updates the effects with `par_iter_mut`; a `Bubbles`
parent first evaluates `random_bool(0.2) && bubble_count.load(SeqCst) < 10`
and only later runs `bubble_count.fetch_add(2, SeqCst)` after pushing its
two children.  Between a parent's load and its add, other parents may
perform their own loads and adds.  `parRun` executes one such interleaving
over `Bubbles`-only parents: program counter 0 = before the check, 1 =
check passed (children not yet pushed), 2 = done. -/

/-- One scheduled step of parent `i`: at pc 0 perform the
check (`random && load < 10`), at pc 1 push the two children and
`fetch_add 2`. The state is `(counter, children pushed, pcs)`. -/
def parStep (oracles : List Bool) (st : ℕ × ℕ × List ℕ) (i : ℕ) :
    ℕ × ℕ × List ℕ :=
  let pc := st.2.2.getD i 2
  if pc = 0 then
    if oracles.getD i false ∧ st.1 < 10 then (st.1, st.2.1, st.2.2.set i 1)
    else (st.1, st.2.1, st.2.2.set i 2)
  else if pc = 1 then (st.1 + 2, st.2.1 + 2, st.2.2.set i 2)
  else st

/-- Run a schedule (list of parent indices) of counter accesses. -/
def parRun (oracles : List Bool) (sched : List ℕ) : ℕ × ℕ × List ℕ :=
  sched.foldl (parStep oracles) (0, 0, List.replicate oracles.length 0)

/-- C4 (counterexample): six `Small` parents that all pass the
`bubble_count.load < 10` check (counter still 0) before any of them runs
`fetch_add` spawn 2 children each — 12 children in a single tick, above
the claimed shared cap of 10.  This interleaving is allowed by the
`par_iter_mut` loop because the check and the increment are separate
atomic operations. -/
theorem C4_counterexample :
    (parRun (List.replicate 6 true)
      [0, 1, 2, 3, 4, 5, 0, 1, 2, 3, 4, 5]).2.1 = 12 ∧
    ¬((parRun (List.replicate 6 true)
      [0, 1, 2, 3, 4, 5, 0, 1, 2, 3, 4, 5]).2.1 ≤ 10) := by
  refine ⟨rfl, by decide⟩

end TD
